import Mathlib

/-!
Shallow embedding of the `CertificateManager` Solidity contract
(EDUVERSE repository): the certificate ledger state machine with
one-certificate-per-user records, payment-hash replay protection and
split-payment settlement.

Modelling conventions:
* addresses and `bytes32` payment hashes are `Nat` (0 plays the role of
  `address(0)` / `bytes32(0)`);
* wei amounts and timestamps are `Nat` (no overflow is reachable for the
  amounts involved, all far below 2^256, and Solidity 0.8 reverts on
  overflow anyway);
* Solidity mappings are Lean functions with a pointwise-update helper;
  a missing struct entry reads as the all-zero default struct, as in the
  EVM storage model;
* each external entry point is a function from a call context and a
  contract state to `Except CMError (CMState × List Effect)`: `.error`
  models `revert` (the whole transaction rolls back, so the state is
  unchanged), `.ok` returns the post-state together with the ordered
  trace of storage writes and value-transfer legs the call performs;
* `string.length` stands for `bytes(str).length` (the distinction only
  matters for multi-byte characters and affects no claim);
* the two read-only external oracles (`ProgressTracker`,
  `CourseLicense`) and the `CourseFactory` registry are an `Env` of
  functions;
* `nonReentrant` has no counterpart in a sequential semantics; the
  effect traces make the write/transfer ordering that the reentrancy
  argument relies on directly observable.
-/

set_option maxRecDepth 16000

/-- Pointwise update of a one-argument mapping. -/
def fupd {α : Type} (f : Nat → α) (k : Nat) (v : α) : Nat → α :=
  fun x => if x = k then v else f x

/-- Pointwise update of a two-argument mapping. -/
def fupd2 {α : Type} (f : Nat → Nat → α) (k1 k2 : Nat) (v : α) : Nat → Nat → α :=
  fun x y => if x = k1 then (if y = k2 then v else f x y) else f x y

@[simp] theorem fupd_same {α : Type} (f : Nat → α) (k : Nat) (v : α) :
    fupd f k v k = v := by simp [fupd]

@[simp] theorem fupd_ne {α : Type} (f : Nat → α) (k x : Nat) (v : α) (h : x ≠ k) :
    fupd f k v x = f x := by simp [fupd, h]

theorem fupd_apply {α : Type} (f : Nat → α) (k x : Nat) (v : α) :
    fupd f k v x = if x = k then v else f x := rfl

theorem fupd2_apply {α : Type} (f : Nat → Nat → α) (k1 k2 x y : Nat) (v : α) :
    fupd2 f k1 k2 v x y = if x = k1 then (if y = k2 then v else f x y) else f x y := rfl

/-- The `Certificate` struct of the contract. -/
structure Certificate where
  tokenId : Nat
  platformName : String
  recipientName : String
  recipientAddress : Nat
  lifetimeFlag : Bool
  isValid : Bool
  ipfsCID : String
  baseRoute : String
  issuedAt : Nat
  lastUpdated : Nat
  totalCoursesCompleted : Nat
  paymentReceiptHash : Nat
  completedCourses : List Nat
  deriving Repr, DecidableEq

/-- The all-zero struct an EVM mapping yields for an absent key. -/
def defaultCertificate : Certificate :=
  { tokenId := 0, platformName := "", recipientName := "", recipientAddress := 0
    lifetimeFlag := false, isValid := false, ipfsCID := "", baseRoute := ""
    issuedAt := 0, lastUpdated := 0, totalCoursesCompleted := 0
    paymentReceiptHash := 0, completedCourses := [] }

/-- The custom errors of the contract, plus the OpenZeppelin
`Pausable`/`Ownable`/`ERC1155` reverts and string reverts it can raise. -/
inductive CMError where
  | InvalidPaymentReceiptHash
  | CertificateAlreadyExists
  | NoCertificateExists
  | CourseNotCompleted
  | CourseAlreadyInCertificate
  | InsufficientPayment
  | InvalidStringLength (param : String) (maxLength : Nat)
  | InvalidAddress (addr : Nat)
  | CertificateNotFound (tokenId : Nat)
  | PaymentHashAlreadyUsed
  | ZeroAmount
  | EmptyCoursesArray
  | NoLicenseOwnership
  | ExceedsMaxPrice
  | EnforcedPause
  | ExpectedPause
  | OwnableUnauthorizedAccount (addr : Nat)
  | ERC1155InvalidReceiver (addr : Nat)
  | ERC1155InvalidOperator (addr : Nat)
  | ERC1155MissingApprovalForAll (operator owner : Nat)
  | RevertMsg (msg : String)
  deriving Repr, DecidableEq

/-- One observable step a successful call performs, in program order:
storage writes and external value-transfer legs. -/
inductive Effect where
  | markPaymentHash (h : Nat)
  | writeCertificate (tokenId : Nat)
  | writeUserCertificate (user : Nat)
  | writeCourseExists (tokenId courseId : Nat)
  | writeCompletionDate (tokenId courseId : Nat)
  | mintToken (dst tokenId : Nat)
  | transferValue (dst amount : Nat)
  deriving Repr, DecidableEq

/-- Is the effect one of the value-transfer legs of settlement? -/
def Effect.isTransfer : Effect → Bool
  | .transferValue _ _ => true
  | _ => false

/-- External read-only collaborators: `ProgressTracker`, `CourseLicense`
and `CourseFactory`. -/
structure Env where
  isCourseCompleted : Nat → Nat → Bool
  licenseCourseId : Nat → Nat → Nat
  courseCreator : Nat → Nat
  courseSectionsLen : Nat → Nat
  sectionCompletedAt : Nat → Nat → Nat → Nat

/-- Per-call EVM context: `msg.sender`, `msg.value`, `block.timestamp`. -/
structure Ctx where
  sender : Nat
  value : Nat
  timestamp : Nat

/-- The storage of the `CertificateManager` contract. -/
structure CMState where
  nextTokenId : Nat
  certificates : Nat → Option Certificate
  userCertificates : Nat → Nat
  usedPaymentHashes : Nat → Bool
  certificateCourseExists : Nat → Nat → Bool
  certificateCourseCompletionDate : Nat → Nat → Nat
  courseCertificatePrices : Nat → Nat
  tokenURIs : Nat → String
  defaultCertificateFee : Nat
  defaultCourseAdditionFee : Nat
  platformWallet : Nat
  defaultPlatformName : String
  defaultBaseRoute : String
  defaultMetadataBaseURI : String
  contractOwner : Nat
  paused : Bool
  operatorApprovals : Nat → Nat → Bool

/-- `MAX_CERTIFICATE_PRICE = 0.002 ether`. -/
def MAX_CERTIFICATE_PRICE : Nat := 2 * 10 ^ 15

/-- State right after the constructor: `_nextTokenId = 1`, default fees
`0.001` / `0.0001` ether, empty mappings, not paused. -/
def initState (deployer platformWallet : Nat)
    (initialBaseRoute platformName : String) : CMState :=
  { nextTokenId := 1
    certificates := fun _ => none
    userCertificates := fun _ => 0
    usedPaymentHashes := fun _ => false
    certificateCourseExists := fun _ _ => false
    certificateCourseCompletionDate := fun _ _ => 0
    courseCertificatePrices := fun _ => 0
    tokenURIs := fun _ => ""
    defaultCertificateFee := 10 ^ 15
    defaultCourseAdditionFee := 10 ^ 14
    platformWallet := platformWallet
    defaultPlatformName := platformName
    defaultBaseRoute := initialBaseRoute
    defaultMetadataBaseURI := ""
    contractOwner := deployer
    paused := false
    operatorApprovals := fun _ _ => false }

/-- Reading `certificates[tokenId]` with EVM default-struct semantics. -/
def getCert (s : CMState) (tokenId : Nat) : Certificate :=
  (s.certificates tokenId).getD defaultCertificate

/-- `_exists`: `tokenId > 0 && tokenId < _nextTokenId`. -/
def CMState.existsTok (s : CMState) (tokenId : Nat) : Bool :=
  decide (0 < tokenId) && decide (tokenId < s.nextTokenId)

/-- `getUserCertificate`: the user's single certificate id, 0 if none. -/
def getUserCertificate (s : CMState) (user : Nat) : Nat :=
  s.userCertificates user

/-- `_getCertificatePrice`: creator-set price if positive, else the
default certificate (mint) fee — note: NOT the course-addition fee. -/
def _getCertificatePrice (s : CMState) (courseId : Nat) : Nat :=
  if 0 < s.courseCertificatePrices courseId then s.courseCertificatePrices courseId
  else s.defaultCertificateFee

/-- `validStringLength` modifier: `bytes(str).length` in (0, maxLength]. -/
def validStringLength (str : String) (maxLength : Nat) : Bool :=
  decide (0 < str.length) && decide (str.length ≤ maxLength)

/-- `platformFee = (totalAmount * 1000) / 10000` in
`_processCertificatePayment` (the 10% splitter). -/
def certPaymentPlatformShare (totalAmount : Nat) : Nat := totalAmount * 1000 / 10000

/-- `creatorFee = totalAmount - platformFee` in `_processCertificatePayment`. -/
def certPaymentPayeeShare (totalAmount : Nat) : Nat :=
  totalAmount - certPaymentPlatformShare totalAmount

/-- `platformFee = (totalAmount * 200) / 10000` in `_processPayment`
(the 2% splitter). -/
def paymentPlatformShare (totalAmount : Nat) : Nat := totalAmount * 200 / 10000

/-- `recipientFee = totalAmount - platformFee` in `_processPayment`. -/
def paymentPayeeShare (totalAmount : Nat) : Nat :=
  totalAmount - paymentPlatformShare totalAmount

/-- The transfer legs of `_processCertificatePayment` (10% platform fee):
platform fee, creator remainder, refund of any excess over
`totalAmount`, each leg emitted only when positive, in program order. -/
def _processCertificatePayment (platformWallet recipient totalAmount msgValue sender : Nat) :
    List Effect :=
  (if 0 < certPaymentPlatformShare totalAmount then
    [Effect.transferValue platformWallet (certPaymentPlatformShare totalAmount)] else [])
  ++ (if 0 < certPaymentPayeeShare totalAmount then
    [Effect.transferValue recipient (certPaymentPayeeShare totalAmount)] else [])
  ++ (if totalAmount < msgValue then
    [Effect.transferValue sender (msgValue - totalAmount)] else [])

/-- The transfer legs of `_processPayment` (2% platform fee). -/
def _processPayment (platformWallet recipient totalAmount msgValue sender : Nat) :
    List Effect :=
  (if 0 < paymentPlatformShare totalAmount then
    [Effect.transferValue platformWallet (paymentPlatformShare totalAmount)] else [])
  ++ (if 0 < paymentPayeeShare totalAmount then
    [Effect.transferValue recipient (paymentPayeeShare totalAmount)] else [])
  ++ (if totalAmount < msgValue then
    [Effect.transferValue sender (msgValue - totalAmount)] else [])

/-- Total wei moved by a list of effects. -/
def transferTotal (l : List Effect) : Nat :=
  (l.map fun e => match e with
    | .transferValue _ a => a
    | _ => 0).sum

/-- The record created by `_mintFirstCertificate`: seeded with exactly
one course, `issuedAt = lastUpdated = block.timestamp`, owner =
`msg.sender`. -/
def mintCert (ctx : Ctx) (s : CMState) (courseId : Nat)
    (recipientName ipfsCID : String) (paymentReceiptHash : Nat)
    (baseRoute : String) : Certificate :=
  { tokenId := s.nextTokenId
    platformName := s.defaultPlatformName
    recipientName := recipientName
    recipientAddress := ctx.sender
    lifetimeFlag := true
    isValid := true
    ipfsCID := ipfsCID
    baseRoute := baseRoute
    issuedAt := ctx.timestamp
    lastUpdated := ctx.timestamp
    totalCoursesCompleted := 1
    paymentReceiptHash := paymentReceiptHash
    completedCourses := [courseId] }

/-- The write-and-settle sequence of `_mintFirstCertificate` once every
check has passed: mark hash, store the record at the freshly allocated
token id, map the user, flag the course, mint the soulbound token, then
run the 10%-fee settlement. -/
def mintWrites (env : Env) (ctx : Ctx) (s : CMState) (courseId : Nat)
    (recipientName ipfsCID : String) (paymentReceiptHash : Nat)
    (baseRoute : String) : CMState × List Effect :=
  ({ s with
      nextTokenId := s.nextTokenId + 1
      usedPaymentHashes := fupd s.usedPaymentHashes paymentReceiptHash true
      certificates := fupd s.certificates s.nextTokenId
        (some (mintCert ctx s courseId recipientName ipfsCID paymentReceiptHash baseRoute))
      userCertificates := fupd s.userCertificates ctx.sender s.nextTokenId
      certificateCourseExists :=
        fupd2 s.certificateCourseExists s.nextTokenId courseId true },
    [Effect.markPaymentHash paymentReceiptHash,
     Effect.writeCertificate s.nextTokenId,
     Effect.writeUserCertificate ctx.sender,
     Effect.writeCourseExists s.nextTokenId courseId,
     Effect.mintToken ctx.sender s.nextTokenId]
    ++ _processCertificatePayment s.platformWallet (env.courseCreator courseId)
        (_getCertificatePrice s courseId) ctx.value ctx.sender)

/-- `_mintFirstCertificate` (internal): the `validStringLength`
modifier on `recipientName`, the double-mint re-check, price and
payment validation, then the write-and-settle sequence. -/
def _mintFirstCertificate (env : Env) (ctx : Ctx) (s : CMState)
    (courseId : Nat) (recipientName ipfsCID : String)
    (paymentReceiptHash : Nat) (baseRoute : String) :
    Except CMError (CMState × List Effect) :=
  if validStringLength recipientName 100 then
    if s.userCertificates ctx.sender = 0 then
      if ctx.value < _getCertificatePrice s courseId then .error .InsufficientPayment
      else
        .ok (mintWrites env ctx s courseId recipientName ipfsCID
          paymentReceiptHash baseRoute)
    else .error .CertificateAlreadyExists
  else .error (.InvalidStringLength "recipientName" 100)

/-- The write-and-settle sequence of `_addCourseToExistingCertificate`
once every check has passed: mark hash, grow the record, flag the
course, store the completion date when the course has sections, then
run the 2%-fee settlement. -/
def addCourseWrites (env : Env) (ctx : Ctx) (s : CMState)
    (tokenId courseId : Nat) (ipfsCID : String) (paymentReceiptHash : Nat) :
    CMState × List Effect :=
  ({ s with
      usedPaymentHashes := fupd s.usedPaymentHashes paymentReceiptHash true
      certificates := fupd s.certificates tokenId
        (some { (getCert s tokenId) with
                completedCourses := (getCert s tokenId).completedCourses ++ [courseId]
                totalCoursesCompleted := (getCert s tokenId).totalCoursesCompleted + 1
                lastUpdated := ctx.timestamp
                ipfsCID := ipfsCID
                paymentReceiptHash := paymentReceiptHash })
      certificateCourseExists :=
        fupd2 s.certificateCourseExists tokenId courseId true
      certificateCourseCompletionDate :=
        if 0 < env.courseSectionsLen courseId then
          fupd2 s.certificateCourseCompletionDate tokenId courseId
            (env.sectionCompletedAt ctx.sender courseId
              (env.courseSectionsLen courseId - 1))
        else s.certificateCourseCompletionDate },
    [Effect.markPaymentHash paymentReceiptHash,
     Effect.writeCertificate tokenId,
     Effect.writeCourseExists tokenId courseId]
    ++ (if 0 < env.courseSectionsLen courseId then
        [Effect.writeCompletionDate tokenId courseId] else [])
    ++ _processPayment s.platformWallet (env.courseCreator courseId)
        (_getCertificatePrice s courseId) ctx.value ctx.sender)

/-- `_addCourseToExistingCertificate` (internal): price and payment
validation, ownership and validity checks, duplicate-course check,
then the write-and-settle sequence. -/
def _addCourseToExistingCertificate (env : Env) (ctx : Ctx) (s : CMState)
    (tokenId courseId : Nat) (ipfsCID : String) (paymentReceiptHash : Nat) :
    Except CMError (CMState × List Effect) :=
  if ctx.value < _getCertificatePrice s courseId then .error .InsufficientPayment
  else if (getCert s tokenId).recipientAddress = ctx.sender then
    if (getCert s tokenId).isValid then
      if s.certificateCourseExists tokenId courseId then
        .error .CourseAlreadyInCertificate
      else
        .ok (addCourseWrites env ctx s tokenId courseId ipfsCID paymentReceiptHash)
    else .error (.CertificateNotFound tokenId)
  else .error (.CertificateNotFound tokenId)

/-- `mintOrUpdateCertificate` (external): `whenNotPaused`,
`validStringLength(ipfsCID, 2000)`, payment-hash validation and replay
check, completion oracle, historical-license oracle, then mint-vs-append
dispatch on `userCertificates[msg.sender]`. -/
def mintOrUpdateCertificate (env : Env) (ctx : Ctx) (s : CMState)
    (courseId : Nat) (recipientName ipfsCID : String)
    (paymentReceiptHash : Nat) (baseRoute : String) :
    Except CMError (CMState × List Effect) :=
  if s.paused then .error .EnforcedPause
  else if validStringLength ipfsCID 2000 then
    if paymentReceiptHash = 0 then .error .InvalidPaymentReceiptHash
    else if s.usedPaymentHashes paymentReceiptHash then .error .PaymentHashAlreadyUsed
    else if env.isCourseCompleted ctx.sender courseId then
      if env.licenseCourseId ctx.sender courseId = 0 then .error .NoLicenseOwnership
      else if s.userCertificates ctx.sender = 0 then
        _mintFirstCertificate env ctx s courseId recipientName ipfsCID
          paymentReceiptHash baseRoute
      else
        _addCourseToExistingCertificate env ctx s (s.userCertificates ctx.sender)
          courseId ipfsCID paymentReceiptHash
    else .error .CourseNotCompleted
  else .error (.InvalidStringLength "ipfsCID" 2000)

/-- The write-and-settle sequence of `updateCertificate` once every
check has passed: mark hash, refresh the record's CID / receipt /
timestamp, then settle `defaultCourseAdditionFee` through the 10%-fee
splitter with the platform wallet as both recipient legs. -/
def updateWrites (ctx : Ctx) (s : CMState)
    (tokenId : Nat) (newIpfsCID : String) (paymentReceiptHash : Nat) :
    CMState × List Effect :=
  ({ s with
      usedPaymentHashes := fupd s.usedPaymentHashes paymentReceiptHash true
      certificates := fupd s.certificates tokenId
        (some { (getCert s tokenId) with
                ipfsCID := newIpfsCID
                paymentReceiptHash := paymentReceiptHash
                lastUpdated := ctx.timestamp }) },
    [Effect.markPaymentHash paymentReceiptHash,
     Effect.writeCertificate tokenId]
    ++ _processCertificatePayment s.platformWallet s.platformWallet
        s.defaultCourseAdditionFee ctx.value ctx.sender)

/-- `updateCertificate` (external): content refresh only; owner-gated,
priced at `defaultCourseAdditionFee`, settled in full to the platform
wallet through `_processCertificatePayment` (the 10%-fee splitter) with
the platform wallet as both recipient legs. -/
def updateCertificate (ctx : Ctx) (s : CMState)
    (tokenId : Nat) (newIpfsCID : String) (paymentReceiptHash : Nat) :
    Except CMError (CMState × List Effect) :=
  if s.paused then .error .EnforcedPause
  else if validStringLength newIpfsCID 2000 then
    if paymentReceiptHash = 0 then .error .InvalidPaymentReceiptHash
    else if s.usedPaymentHashes paymentReceiptHash then .error .PaymentHashAlreadyUsed
    else if s.existsTok tokenId then
      if ctx.value < s.defaultCourseAdditionFee then .error .InsufficientPayment
      else if (getCert s tokenId).isValid then
        if (getCert s tokenId).recipientAddress = ctx.sender then
          .ok (updateWrites ctx s tokenId newIpfsCID paymentReceiptHash)
        else .error (.RevertMsg "Only certificate owner can update")
      else .error (.CertificateNotFound tokenId)
    else .error (.CertificateNotFound tokenId)
  else .error (.InvalidStringLength "newIpfsCID" 2000)

/-- The pre-mutation validation loop of `addMultipleCoursesToCertificate`:
each course in order is checked for completion and then for membership
against the PRE-call `certificateCourseExists` mapping (the mapping is
only written after the whole loop, so duplicates inside the batch
itself are not detected here). -/
def validateBatch (env : Env) (sender tokenId : Nat) (s : CMState) :
    List Nat → Except CMError Unit
  | [] => .ok ()
  | courseId :: rest =>
    if env.isCourseCompleted sender courseId then
      if s.certificateCourseExists tokenId courseId then
        .error .CourseAlreadyInCertificate
      else validateBatch env sender tokenId s rest
    else .error .CourseNotCompleted

/-- The append loop of `addMultipleCoursesToCertificate`: set every
course id member flag, in order. -/
def setCoursesExist (f : Nat → Nat → Bool) (tokenId : Nat) : List Nat → (Nat → Nat → Bool)
  | [] => f
  | c :: rest => setCoursesExist (fupd2 f tokenId c true) tokenId rest

/-- The write-and-settle sequence of `addMultipleCoursesToCertificate`
once every check has passed: mark hash, append the whole batch to the
record, flag each course, then settle the total batch fee through the
10%-fee splitter with the platform wallet as both recipient legs. -/
def batchWrites (ctx : Ctx) (s : CMState) (tokenId : Nat)
    (courseIds : List Nat) (ipfsCID : String) (paymentReceiptHash : Nat) :
    CMState × List Effect :=
  ({ s with
      usedPaymentHashes := fupd s.usedPaymentHashes paymentReceiptHash true
      certificates := fupd s.certificates tokenId
        (some { (getCert s tokenId) with
                completedCourses := (getCert s tokenId).completedCourses ++ courseIds
                totalCoursesCompleted :=
                  (getCert s tokenId).totalCoursesCompleted + courseIds.length
                lastUpdated := ctx.timestamp
                ipfsCID := ipfsCID
                paymentReceiptHash := paymentReceiptHash })
      certificateCourseExists :=
        setCoursesExist s.certificateCourseExists tokenId courseIds },
    [Effect.markPaymentHash paymentReceiptHash]
    ++ courseIds.flatMap (fun c =>
        [Effect.writeCertificate tokenId, Effect.writeCourseExists tokenId c])
    ++ [Effect.writeCertificate tokenId]
    ++ _processCertificatePayment s.platformWallet s.platformWallet
        (s.defaultCourseAdditionFee * courseIds.length) ctx.value ctx.sender)

/-- `addMultipleCoursesToCertificate` (external): batch append, priced
at `defaultCourseAdditionFee` per course, all-or-nothing validation,
settled in full to the platform wallet via `_processCertificatePayment`. -/
def addMultipleCoursesToCertificate (env : Env) (ctx : Ctx) (s : CMState)
    (courseIds : List Nat) (ipfsCID : String) (paymentReceiptHash : Nat) :
    Except CMError (CMState × List Effect) :=
  if s.paused then .error .EnforcedPause
  else if validStringLength ipfsCID 2000 then
    if courseIds = [] then .error .EmptyCoursesArray
    else if paymentReceiptHash = 0 then .error .InvalidPaymentReceiptHash
    else if s.usedPaymentHashes paymentReceiptHash then .error .PaymentHashAlreadyUsed
    else if s.userCertificates ctx.sender = 0 then .error .NoCertificateExists
    else if (getCert s (s.userCertificates ctx.sender)).isValid then
      if ctx.value < s.defaultCourseAdditionFee * courseIds.length then
        .error .InsufficientPayment
      else
        match validateBatch env ctx.sender (s.userCertificates ctx.sender) s courseIds with
        | .error e => .error e
        | .ok _ =>
          .ok (batchWrites ctx s (s.userCertificates ctx.sender) courseIds
            ipfsCID paymentReceiptHash)
    else .error (.CertificateNotFound (s.userCertificates ctx.sender))
  else .error (.InvalidStringLength "ipfsCID" 2000)

/-- `revokeCertificate` (admin only): unconditional `isValid := false`. -/
def revokeCertificate (ctx : Ctx) (s : CMState) (tokenId : Nat) :
    Except CMError (CMState × List Effect) :=
  if ctx.sender = s.contractOwner then
    if s.existsTok tokenId then
      .ok ({ s with
              certificates := fupd s.certificates tokenId
                (some { (getCert s tokenId) with isValid := false }) },
        [Effect.writeCertificate tokenId])
    else .error (.CertificateNotFound tokenId)
  else .error (.OwnableUnauthorizedAccount ctx.sender)

/-- `setDefaultCertificateFee` (admin only). -/
def setDefaultCertificateFee (ctx : Ctx) (s : CMState) (newFee : Nat) :
    Except CMError (CMState × List Effect) :=
  if ctx.sender = s.contractOwner then
    if newFee = 0 then .error .ZeroAmount
    else if MAX_CERTIFICATE_PRICE < newFee then .error .ExceedsMaxPrice
    else .ok ({ s with defaultCertificateFee := newFee }, [])
  else .error (.OwnableUnauthorizedAccount ctx.sender)

/-- `setDefaultCourseAdditionFee` (admin only). -/
def setDefaultCourseAdditionFee (ctx : Ctx) (s : CMState) (newFee : Nat) :
    Except CMError (CMState × List Effect) :=
  if ctx.sender = s.contractOwner then
    if newFee = 0 then .error .ZeroAmount
    else if MAX_CERTIFICATE_PRICE < newFee then .error .ExceedsMaxPrice
    else .ok ({ s with defaultCourseAdditionFee := newFee }, [])
  else .error (.OwnableUnauthorizedAccount ctx.sender)

/-- `setPlatformWallet` (admin only). -/
def setPlatformWallet (ctx : Ctx) (s : CMState) (newWallet : Nat) :
    Except CMError (CMState × List Effect) :=
  if ctx.sender = s.contractOwner then
    if newWallet = 0 then .error (.InvalidAddress newWallet)
    else .ok ({ s with platformWallet := newWallet }, [])
  else .error (.OwnableUnauthorizedAccount ctx.sender)

/-- `setDefaultPlatformName` (admin only). -/
def setDefaultPlatformName (ctx : Ctx) (s : CMState) (newPlatformName : String) :
    Except CMError (CMState × List Effect) :=
  if ctx.sender = s.contractOwner then
    if validStringLength newPlatformName 100 then
      .ok ({ s with defaultPlatformName := newPlatformName }, [])
    else .error (.InvalidStringLength "platformName" 100)
  else .error (.OwnableUnauthorizedAccount ctx.sender)

/-- `setCourseCertificatePrice` (course creator only). -/
def setCourseCertificatePrice (env : Env) (ctx : Ctx) (s : CMState)
    (courseId price : Nat) : Except CMError (CMState × List Effect) :=
  if price = 0 then .error .ZeroAmount
  else if MAX_CERTIFICATE_PRICE < price then .error .ExceedsMaxPrice
  else if env.courseCreator courseId = ctx.sender then
    .ok ({ s with
            courseCertificatePrices := fupd s.courseCertificatePrices courseId price },
      [])
  else .error (.RevertMsg "Only course creator can set price")

/-- `setTokenURI` (admin only). -/
def setTokenURI (ctx : Ctx) (s : CMState) (tokenId : Nat) (tokenURI : String) :
    Except CMError (CMState × List Effect) :=
  if ctx.sender = s.contractOwner then
    if s.existsTok tokenId then
      .ok ({ s with tokenURIs := fupd s.tokenURIs tokenId tokenURI }, [])
    else .error (.CertificateNotFound tokenId)
  else .error (.OwnableUnauthorizedAccount ctx.sender)

/-- `updateBaseRoute` (admin only): per-certificate QR base route. -/
def updateBaseRoute (ctx : Ctx) (s : CMState) (tokenId : Nat) (newBaseRoute : String) :
    Except CMError (CMState × List Effect) :=
  if ctx.sender = s.contractOwner then
    if validStringLength newBaseRoute 200 then
      if s.existsTok tokenId then
        .ok ({ s with
                certificates := fupd s.certificates tokenId
                  (some { (getCert s tokenId) with
                          baseRoute := newBaseRoute, lastUpdated := ctx.timestamp }) },
          [Effect.writeCertificate tokenId])
      else .error (.CertificateNotFound tokenId)
    else .error (.InvalidStringLength "baseRoute" 200)
  else .error (.OwnableUnauthorizedAccount ctx.sender)

/-- `updateDefaultBaseRoute` (admin only). -/
def updateDefaultBaseRoute (ctx : Ctx) (s : CMState) (newBaseRoute : String) :
    Except CMError (CMState × List Effect) :=
  if ctx.sender = s.contractOwner then
    if validStringLength newBaseRoute 200 then
      .ok ({ s with defaultBaseRoute := newBaseRoute }, [])
    else .error (.InvalidStringLength "baseRoute" 200)
  else .error (.OwnableUnauthorizedAccount ctx.sender)

/-- `updateDefaultMetadataBaseURI` (admin only, unvalidated). -/
def updateDefaultMetadataBaseURI (ctx : Ctx) (s : CMState) (newBaseURI : String) :
    Except CMError (CMState × List Effect) :=
  if ctx.sender = s.contractOwner then
    .ok ({ s with defaultMetadataBaseURI := newBaseURI }, [])
  else .error (.OwnableUnauthorizedAccount ctx.sender)

/-- The loop body of `batchUpdateBaseRoute`: silently skips ids that do
not exist. -/
def batchSetRoute (nextTokenId ts : Nat) (route : String) :
    (Nat → Option Certificate) → List Nat → (Nat → Option Certificate)
  | certs, [] => certs
  | certs, t :: rest =>
    batchSetRoute nextTokenId ts route
      (if 0 < t ∧ t < nextTokenId then
        fupd certs t (some { ((certs t).getD defaultCertificate) with
                             baseRoute := route, lastUpdated := ts })
      else certs) rest

/-- `batchUpdateBaseRoute` (admin only). -/
def batchUpdateBaseRoute (ctx : Ctx) (s : CMState)
    (tokenIds : List Nat) (newBaseRoute : String) :
    Except CMError (CMState × List Effect) :=
  if ctx.sender = s.contractOwner then
    if validStringLength newBaseRoute 200 then
      if tokenIds = [] then .error .EmptyCoursesArray
      else
        .ok ({ s with
                certificates := batchSetRoute s.nextTokenId ctx.timestamp newBaseRoute
                  s.certificates tokenIds },
          tokenIds.map Effect.writeCertificate)
    else .error (.InvalidStringLength "baseRoute" 200)
  else .error (.OwnableUnauthorizedAccount ctx.sender)

/-- `pause` (admin only; OpenZeppelin `_pause` requires not paused). -/
def pauseOp (ctx : Ctx) (s : CMState) : Except CMError (CMState × List Effect) :=
  if ctx.sender = s.contractOwner then
    if s.paused then .error .EnforcedPause
    else .ok ({ s with paused := true }, [])
  else .error (.OwnableUnauthorizedAccount ctx.sender)

/-- `unpause` (admin only; OpenZeppelin `_unpause` requires paused). -/
def unpauseOp (ctx : Ctx) (s : CMState) : Except CMError (CMState × List Effect) :=
  if ctx.sender = s.contractOwner then
    if s.paused then .ok ({ s with paused := false }, [])
    else .error .ExpectedPause
  else .error (.OwnableUnauthorizedAccount ctx.sender)

/-- ERC-1155 `setApprovalForAll` (inherited, not overridden). -/
def setApprovalForAll (ctx : Ctx) (s : CMState) (operator : Nat) (approved : Bool) :
    Except CMError (CMState × List Effect) :=
  if operator = 0 then .error (.ERC1155InvalidOperator 0)
  else
    .ok ({ s with
            operatorApprovals := fupd2 s.operatorApprovals ctx.sender operator approved },
      [])

/-- ERC-1155 `safeTransferFrom` through the contract's `_update`
override: the override reverts whenever both endpoints are nonzero
("Certificates are soulbound"), and the inherited entry point itself
rejects a missing approval, a zero receiver or a zero sender, so no
transfer entry ever succeeds. -/
def safeTransferFrom (ctx : Ctx) (s : CMState) (srcAddr dstAddr tid amount : Nat) :
    Except CMError (CMState × List Effect) :=
  if srcAddr = ctx.sender ∨ s.operatorApprovals srcAddr ctx.sender then
    if dstAddr = 0 then .error (.ERC1155InvalidReceiver 0)
    else if srcAddr = 0 then .error (.InvalidAddress 0)
    else .error (.RevertMsg "Certificates are soulbound")
  else .error (.ERC1155MissingApprovalForAll ctx.sender srcAddr)

/-- One external call into the contract (all mutating entry points). -/
inductive Op where
  | mintOrUpdate (ctx : Ctx) (courseId : Nat) (recipientName ipfsCID : String)
      (paymentReceiptHash : Nat) (baseRoute : String)
  | updateCert (ctx : Ctx) (tokenId : Nat) (newIpfsCID : String)
      (paymentReceiptHash : Nat)
  | addMultiple (ctx : Ctx) (courseIds : List Nat) (ipfsCID : String)
      (paymentReceiptHash : Nat)
  | revoke (ctx : Ctx) (tokenId : Nat)
  | setDefCertFee (ctx : Ctx) (newFee : Nat)
  | setDefAddFee (ctx : Ctx) (newFee : Nat)
  | setWallet (ctx : Ctx) (newWallet : Nat)
  | setPlatName (ctx : Ctx) (name : String)
  | setCoursePrice (ctx : Ctx) (courseId price : Nat)
  | setURI (ctx : Ctx) (tokenId : Nat) (u : String)
  | setRoute (ctx : Ctx) (tokenId : Nat) (route : String)
  | setDefRoute (ctx : Ctx) (route : String)
  | setMetaURI (ctx : Ctx) (u : String)
  | batchSetRouteOp (ctx : Ctx) (tokenIds : List Nat) (route : String)
  | pause (ctx : Ctx)
  | unpause (ctx : Ctx)
  | approve (ctx : Ctx) (operator : Nat) (approved : Bool)
  | transfer (ctx : Ctx) (srcAddr dstAddr id amount : Nat)

/-- Dispatch one call against the contract. -/
def step (env : Env) (s : CMState) : Op → Except CMError (CMState × List Effect)
  | .mintOrUpdate ctx courseId name cid h route =>
    mintOrUpdateCertificate env ctx s courseId name cid h route
  | .updateCert ctx tokenId cid h => updateCertificate ctx s tokenId cid h
  | .addMultiple ctx courseIds cid h =>
    addMultipleCoursesToCertificate env ctx s courseIds cid h
  | .revoke ctx tokenId => revokeCertificate ctx s tokenId
  | .setDefCertFee ctx f => setDefaultCertificateFee ctx s f
  | .setDefAddFee ctx f => setDefaultCourseAdditionFee ctx s f
  | .setWallet ctx w => setPlatformWallet ctx s w
  | .setPlatName ctx n => setDefaultPlatformName ctx s n
  | .setCoursePrice ctx c p => setCourseCertificatePrice env ctx s c p
  | .setURI ctx t u => setTokenURI ctx s t u
  | .setRoute ctx t r => updateBaseRoute ctx s t r
  | .setDefRoute ctx r => updateDefaultBaseRoute ctx s r
  | .setMetaURI ctx u => updateDefaultMetadataBaseURI ctx s u
  | .batchSetRouteOp ctx ts r => batchUpdateBaseRoute ctx s ts r
  | .pause ctx => pauseOp ctx s
  | .unpause ctx => unpauseOp ctx s
  | .approve ctx o a => setApprovalForAll ctx s o a
  | .transfer ctx srcAddr dstAddr id amount => safeTransferFrom ctx s srcAddr dstAddr id amount

/-- The state after a call: unchanged when the call reverts. -/
def stepState (env : Env) (s : CMState) (o : Op) : CMState :=
  match step env s o with
  | .ok (s', _) => s'
  | .error _ => s

/-- States reachable from `s` by any sequence of calls (the oracle
environment may differ call to call). -/
inductive ReachableFrom (s : CMState) : CMState → Prop where
  | refl : ReachableFrom s s
  | step {s' : CMState} (env : Env) (o : Op) :
      ReachableFrom s s' → ReachableFrom s (stepState env s' o)

/-- Run a list of calls in order. -/
def execList (s : CMState) : List (Env × Op) → CMState
  | [] => s
  | (env, o) :: rest => execList (stepState env s o) rest

/-- The payment hash an operation presents, for the three
payment-consuming entry points. -/
def opHash : Op → Option Nat
  | .mintOrUpdate _ _ _ _ h _ => some h
  | .updateCert _ _ _ h => some h
  | .addMultiple _ _ _ h => some h
  | _ => none

/-- Number of successful calls in a run that consume hash `X`. -/
def countConsumes (X : Nat) : CMState → List (Env × Op) → Nat
  | _, [] => 0
  | s, (env, o) :: rest =>
    (if (step env s o).isOk ∧ opHash o = some X then 1 else 0)
    + countConsumes X (stepState env s o) rest

/-- The guard checks that run before the replay check in each
payment-consuming entry point. -/
def guardsOK (s : CMState) : Op → Prop
  | .mintOrUpdate _ _ _ cid _ _ => s.paused = false ∧ validStringLength cid 2000 = true
  | .updateCert _ _ cid _ => s.paused = false ∧ validStringLength cid 2000 = true
  | .addMultiple _ courseIds cid _ =>
      s.paused = false ∧ validStringLength cid 2000 = true ∧ courseIds ≠ []
  | _ => True

/-- The error of a reverted call, `none` on success. -/
def errorOf {α : Type} : Except CMError α → Option CMError
  | .error e => some e
  | .ok _ => none

/-- The effect trace of a successful call, `none` on revert. -/
def effectsOf : Except CMError (CMState × List Effect) → Option (List Effect)
  | .error _ => none
  | .ok (_, l) => some l

/-- "Checks-effects-interactions" shape of a trace: a block of storage
writes followed by a block of value transfers, never a write after a
transfer. -/
def writesBeforeTransfers (l : List Effect) : Prop :=
  ∃ w t, l = w ++ t ∧ (∀ e ∈ w, e.isTransfer = false) ∧ (∀ e ∈ t, e.isTransfer = true)

/-! ### Settlement arithmetic -/

theorem certPaymentPlatformShare_le (R : Nat) : certPaymentPlatformShare R ≤ R := by
  unfold certPaymentPlatformShare
  calc R * 1000 / 10000 ≤ R * 10000 / 10000 :=
        Nat.div_le_div_right (Nat.mul_le_mul_left R (by norm_num))
    _ = R := Nat.mul_div_cancel R (by norm_num)

theorem paymentPlatformShare_le (R : Nat) : paymentPlatformShare R ≤ R := by
  unfold paymentPlatformShare
  calc R * 200 / 10000 ≤ R * 10000 / 10000 :=
        Nat.div_le_div_right (Nat.mul_le_mul_left R (by norm_num))
    _ = R := Nat.mul_div_cancel R (by norm_num)

theorem certPayment_shares_sum (R : Nat) :
    certPaymentPlatformShare R + certPaymentPayeeShare R = R := by
  unfold certPaymentPayeeShare
  exact Nat.add_sub_cancel' (certPaymentPlatformShare_le R)

theorem payment_shares_sum (R : Nat) :
    paymentPlatformShare R + paymentPayeeShare R = R := by
  unfold paymentPayeeShare
  exact Nat.add_sub_cancel' (paymentPlatformShare_le R)

theorem certPaymentPlatformShare_eq_floor (R : Nat) :
    certPaymentPlatformShare R = R * 10 / 100 := by
  unfold certPaymentPlatformShare
  rw [show (10000 : Nat) = 100 * 100 from rfl, show R * 1000 = R * 10 * 100 by ring]
  exact Nat.mul_div_mul_right (R * 10) 100 (by norm_num)

theorem paymentPlatformShare_eq_floor (R : Nat) :
    paymentPlatformShare R = R * 2 / 100 := by
  unfold paymentPlatformShare
  rw [show (10000 : Nat) = 100 * 100 from rfl, show R * 200 = R * 2 * 100 by ring]
  exact Nat.mul_div_mul_right (R * 2) 100 (by norm_num)

theorem transferTotal_append (l1 l2 : List Effect) :
    transferTotal (l1 ++ l2) = transferTotal l1 + transferTotal l2 := by
  simp [transferTotal]

theorem transferTotal_processCertificatePayment (pw rec R v snd : Nat) (h : R ≤ v) :
    transferTotal (_processCertificatePayment pw rec R v snd) = v := by
  have hs := certPayment_shares_sum R
  unfold _processCertificatePayment
  simp only [transferTotal_append]
  split <;> split <;> split <;> simp [transferTotal] <;> omega

theorem transferTotal_processPayment (pw rec R v snd : Nat) (h : R ≤ v) :
    transferTotal (_processPayment pw rec R v snd) = v := by
  have hs := payment_shares_sum R
  unfold _processPayment
  simp only [transferTotal_append]
  split <;> split <;> split <;> simp [transferTotal] <;> omega

theorem refund_leg_processCertificatePayment (pw rec R v snd : Nat) (h : R < v) :
    Effect.transferValue snd (v - R) ∈ _processCertificatePayment pw rec R v snd := by
  unfold _processCertificatePayment
  simp [h]

theorem refund_leg_processPayment (pw rec R v snd : Nat) (h : R < v) :
    Effect.transferValue snd (v - R) ∈ _processPayment pw rec R v snd := by
  unfold _processPayment
  simp [h]

theorem processCertificatePayment_all_transfer (pw rec R v snd : Nat) :
    ∀ e ∈ _processCertificatePayment pw rec R v snd, e.isTransfer = true := by
  unfold _processCertificatePayment
  split <;> split <;> split <;> simp_all [Effect.isTransfer]

theorem processPayment_all_transfer (pw rec R v snd : Nat) :
    ∀ e ∈ _processPayment pw rec R v snd, e.isTransfer = true := by
  unfold _processPayment
  split <;> split <;> split <;> simp_all [Effect.isTransfer]

/-- Every leg of `_processCertificatePayment` pays the platform wallet,
the named recipient, or refunds the excess to the payer. -/
theorem processCertificatePayment_legs (pw rec R v snd : Nat) :
    ∀ e ∈ _processCertificatePayment pw rec R v snd,
      e = Effect.transferValue pw (certPaymentPlatformShare R) ∨
      e = Effect.transferValue rec (certPaymentPayeeShare R) ∨
      e = Effect.transferValue snd (v - R) := by
  unfold _processCertificatePayment
  split <;> split <;> split <;> simp_all

/-! ### Success-case analysis of each mutating entry point -/

set_option maxHeartbeats 1000000

theorem mintOrUpdate_ok_elim {env : Env} {ctx : Ctx} {s : CMState} {courseId : Nat}
    {name cid : String} {hh : Nat} {route : String} {r : CMState × List Effect}
    (hstep : mintOrUpdateCertificate env ctx s courseId name cid hh route = .ok r) :
    s.paused = false ∧ validStringLength cid 2000 = true ∧ hh ≠ 0 ∧
    s.usedPaymentHashes hh = false ∧
    ((s.userCertificates ctx.sender = 0 ∧ validStringLength name 100 = true ∧
      _getCertificatePrice s courseId ≤ ctx.value ∧
      r = mintWrites env ctx s courseId name cid hh route) ∨
     (s.userCertificates ctx.sender ≠ 0 ∧
      _getCertificatePrice s courseId ≤ ctx.value ∧
      (getCert s (s.userCertificates ctx.sender)).recipientAddress = ctx.sender ∧
      (getCert s (s.userCertificates ctx.sender)).isValid = true ∧
      s.certificateCourseExists (s.userCertificates ctx.sender) courseId = false ∧
      r = addCourseWrites env ctx s (s.userCertificates ctx.sender) courseId cid hh)) := by
  unfold mintOrUpdateCertificate at hstep
  split at hstep
  case isTrue => exact absurd hstep (by simp)
  rename_i hPaused
  split at hstep
  case isFalse => exact absurd hstep (by simp)
  rename_i hCid
  split at hstep
  case isTrue => exact absurd hstep (by simp)
  rename_i hHash
  split at hstep
  case isTrue => exact absurd hstep (by simp)
  rename_i hUsed
  split at hstep
  case isFalse => exact absurd hstep (by simp)
  split at hstep
  case isTrue => exact absurd hstep (by simp)
  split at hstep
  case isTrue hUser =>
    unfold _mintFirstCertificate at hstep
    split at hstep
    case isFalse => exact absurd hstep (by simp)
    rename_i hName
    split at hstep
    case isTrue => exact absurd hstep (by simp)
    rename_i hPrice
    simp only [Except.ok.injEq] at hstep
    subst hstep
    exact ⟨by simpa using hPaused, hCid, hHash, by simpa using hUsed,
      Or.inl ⟨hUser, hName, Nat.le_of_not_lt hPrice, rfl⟩⟩
  case isFalse hUser =>
    unfold _addCourseToExistingCertificate at hstep
    split at hstep
    case isTrue => exact absurd hstep (by simp)
    rename_i hPrice
    split at hstep
    case isFalse => exact absurd hstep (by simp)
    rename_i hOwner
    split at hstep
    case isFalse => exact absurd hstep (by simp)
    rename_i hValid
    split at hstep
    case isTrue => exact absurd hstep (by simp)
    rename_i hDup
    simp only [Except.ok.injEq] at hstep
    subst hstep
    exact ⟨by simpa using hPaused, hCid, hHash, by simpa using hUsed,
      Or.inr ⟨hUser, Nat.le_of_not_lt hPrice, hOwner, hValid, by simpa using hDup, rfl⟩⟩

theorem updateCertificate_ok_elim {ctx : Ctx} {s : CMState} {tokenId : Nat}
    {cid : String} {hh : Nat} {r : CMState × List Effect}
    (hstep : updateCertificate ctx s tokenId cid hh = .ok r) :
    s.paused = false ∧ validStringLength cid 2000 = true ∧ hh ≠ 0 ∧
    s.usedPaymentHashes hh = false ∧ s.existsTok tokenId = true ∧
    s.defaultCourseAdditionFee ≤ ctx.value ∧
    (getCert s tokenId).isValid = true ∧
    (getCert s tokenId).recipientAddress = ctx.sender ∧
    r = updateWrites ctx s tokenId cid hh := by
  unfold updateCertificate at hstep
  split at hstep
  case isTrue => exact absurd hstep (by simp)
  rename_i hPaused
  split at hstep
  case isFalse => exact absurd hstep (by simp)
  rename_i hCid
  split at hstep
  case isTrue => exact absurd hstep (by simp)
  rename_i hHash
  split at hstep
  case isTrue => exact absurd hstep (by simp)
  rename_i hUsed
  split at hstep
  case isFalse => exact absurd hstep (by simp)
  rename_i hTok
  split at hstep
  case isTrue => exact absurd hstep (by simp)
  rename_i hVal
  split at hstep
  case isFalse => exact absurd hstep (by simp)
  rename_i hValid
  split at hstep
  case isFalse => exact absurd hstep (by simp)
  rename_i hOwner
  simp only [Except.ok.injEq] at hstep
  subst hstep
  exact ⟨by simpa using hPaused, hCid, hHash, by simpa using hUsed, hTok,
    Nat.le_of_not_lt hVal, hValid, hOwner, rfl⟩

theorem addMultiple_ok_elim {env : Env} {ctx : Ctx} {s : CMState}
    {courseIds : List Nat} {cid : String} {hh : Nat} {r : CMState × List Effect}
    (hstep : addMultipleCoursesToCertificate env ctx s courseIds cid hh = .ok r) :
    s.paused = false ∧ validStringLength cid 2000 = true ∧ courseIds ≠ [] ∧ hh ≠ 0 ∧
    s.usedPaymentHashes hh = false ∧ s.userCertificates ctx.sender ≠ 0 ∧
    (getCert s (s.userCertificates ctx.sender)).isValid = true ∧
    s.defaultCourseAdditionFee * courseIds.length ≤ ctx.value ∧
    validateBatch env ctx.sender (s.userCertificates ctx.sender) s courseIds = .ok () ∧
    r = batchWrites ctx s (s.userCertificates ctx.sender) courseIds cid hh := by
  unfold addMultipleCoursesToCertificate at hstep
  split at hstep
  case isTrue => exact absurd hstep (by simp)
  rename_i hPaused
  split at hstep
  case isFalse => exact absurd hstep (by simp)
  rename_i hCid
  split at hstep
  case isTrue => exact absurd hstep (by simp)
  rename_i hEmpty
  split at hstep
  case isTrue => exact absurd hstep (by simp)
  rename_i hHash
  split at hstep
  case isTrue => exact absurd hstep (by simp)
  rename_i hUsed
  split at hstep
  case isTrue => exact absurd hstep (by simp)
  rename_i hUser
  split at hstep
  case isFalse => exact absurd hstep (by simp)
  rename_i hValid
  split at hstep
  case isTrue => exact absurd hstep (by simp)
  rename_i hFee
  split at hstep
  case h_1 => exact absurd hstep (by simp)
  case h_2 u heq =>
    simp only [Except.ok.injEq] at hstep
    subst hstep
    exact ⟨by simpa using hPaused, hCid, hEmpty, hHash, by simpa using hUsed, hUser,
      hValid, Nat.le_of_not_lt hFee, by cases u; exact heq, rfl⟩

theorem revoke_ok_elim {ctx : Ctx} {s : CMState} {tokenId : Nat}
    {r : CMState × List Effect} (hstep : revokeCertificate ctx s tokenId = .ok r) :
    ctx.sender = s.contractOwner ∧ s.existsTok tokenId = true ∧
    r = ({ s with
            certificates := fupd s.certificates tokenId
              (some { (getCert s tokenId) with isValid := false }) },
      [Effect.writeCertificate tokenId]) := by
  unfold revokeCertificate at hstep
  split at hstep
  case isFalse => exact absurd hstep (by simp)
  rename_i h1
  split at hstep
  case isFalse => exact absurd hstep (by simp)
  rename_i h2
  simp only [Except.ok.injEq] at hstep
  subst hstep
  exact ⟨h1, h2, rfl⟩

theorem setDefCertFee_ok_elim {ctx : Ctx} {s : CMState} {f : Nat}
    {r : CMState × List Effect} (hstep : setDefaultCertificateFee ctx s f = .ok r) :
    r = ({ s with defaultCertificateFee := f }, []) := by
  unfold setDefaultCertificateFee at hstep
  split at hstep
  case isFalse => exact absurd hstep (by simp)
  split at hstep
  case isTrue => exact absurd hstep (by simp)
  split at hstep
  case isTrue => exact absurd hstep (by simp)
  simp only [Except.ok.injEq] at hstep
  exact hstep.symm

theorem setDefAddFee_ok_elim {ctx : Ctx} {s : CMState} {f : Nat}
    {r : CMState × List Effect} (hstep : setDefaultCourseAdditionFee ctx s f = .ok r) :
    r = ({ s with defaultCourseAdditionFee := f }, []) := by
  unfold setDefaultCourseAdditionFee at hstep
  split at hstep
  case isFalse => exact absurd hstep (by simp)
  split at hstep
  case isTrue => exact absurd hstep (by simp)
  split at hstep
  case isTrue => exact absurd hstep (by simp)
  simp only [Except.ok.injEq] at hstep
  exact hstep.symm

theorem setWallet_ok_elim {ctx : Ctx} {s : CMState} {w : Nat}
    {r : CMState × List Effect} (hstep : setPlatformWallet ctx s w = .ok r) :
    r = ({ s with platformWallet := w }, []) := by
  unfold setPlatformWallet at hstep
  split at hstep
  case isFalse => exact absurd hstep (by simp)
  split at hstep
  case isTrue => exact absurd hstep (by simp)
  simp only [Except.ok.injEq] at hstep
  exact hstep.symm

theorem setPlatName_ok_elim {ctx : Ctx} {s : CMState} {n : String}
    {r : CMState × List Effect} (hstep : setDefaultPlatformName ctx s n = .ok r) :
    r = ({ s with defaultPlatformName := n }, []) := by
  unfold setDefaultPlatformName at hstep
  split at hstep
  case isFalse => exact absurd hstep (by simp)
  split at hstep
  case isFalse => exact absurd hstep (by simp)
  simp only [Except.ok.injEq] at hstep
  exact hstep.symm

theorem setCoursePrice_ok_elim {env : Env} {ctx : Ctx} {s : CMState} {c p : Nat}
    {r : CMState × List Effect} (hstep : setCourseCertificatePrice env ctx s c p = .ok r) :
    r = ({ s with courseCertificatePrices := fupd s.courseCertificatePrices c p }, []) := by
  unfold setCourseCertificatePrice at hstep
  split at hstep
  case isTrue => exact absurd hstep (by simp)
  split at hstep
  case isTrue => exact absurd hstep (by simp)
  split at hstep
  case isFalse => exact absurd hstep (by simp)
  simp only [Except.ok.injEq] at hstep
  exact hstep.symm

theorem setURI_ok_elim {ctx : Ctx} {s : CMState} {t : Nat} {u : String}
    {r : CMState × List Effect} (hstep : setTokenURI ctx s t u = .ok r) :
    r = ({ s with tokenURIs := fupd s.tokenURIs t u }, []) := by
  unfold setTokenURI at hstep
  split at hstep
  case isFalse => exact absurd hstep (by simp)
  split at hstep
  case isFalse => exact absurd hstep (by simp)
  simp only [Except.ok.injEq] at hstep
  exact hstep.symm

theorem setRoute_ok_elim {ctx : Ctx} {s : CMState} {t : Nat} {route : String}
    {r : CMState × List Effect} (hstep : updateBaseRoute ctx s t route = .ok r) :
    s.existsTok t = true ∧
    r = ({ s with
            certificates := fupd s.certificates t
              (some { (getCert s t) with
                      baseRoute := route, lastUpdated := ctx.timestamp }) },
      [Effect.writeCertificate t]) := by
  unfold updateBaseRoute at hstep
  split at hstep
  case isFalse => exact absurd hstep (by simp)
  split at hstep
  case isFalse => exact absurd hstep (by simp)
  split at hstep
  case isFalse => exact absurd hstep (by simp)
  rename_i hTok
  simp only [Except.ok.injEq] at hstep
  exact ⟨hTok, hstep.symm⟩

theorem setDefRoute_ok_elim {ctx : Ctx} {s : CMState} {route : String}
    {r : CMState × List Effect} (hstep : updateDefaultBaseRoute ctx s route = .ok r) :
    r = ({ s with defaultBaseRoute := route }, []) := by
  unfold updateDefaultBaseRoute at hstep
  split at hstep
  case isFalse => exact absurd hstep (by simp)
  split at hstep
  case isFalse => exact absurd hstep (by simp)
  simp only [Except.ok.injEq] at hstep
  exact hstep.symm

theorem setMetaURI_ok_elim {ctx : Ctx} {s : CMState} {u : String}
    {r : CMState × List Effect} (hstep : updateDefaultMetadataBaseURI ctx s u = .ok r) :
    r = ({ s with defaultMetadataBaseURI := u }, []) := by
  unfold updateDefaultMetadataBaseURI at hstep
  split at hstep
  case isFalse => exact absurd hstep (by simp)
  simp only [Except.ok.injEq] at hstep
  exact hstep.symm

theorem batchSetRouteOp_ok_elim {ctx : Ctx} {s : CMState} {ts : List Nat}
    {route : String} {r : CMState × List Effect}
    (hstep : batchUpdateBaseRoute ctx s ts route = .ok r) :
    r = ({ s with
            certificates := batchSetRoute s.nextTokenId ctx.timestamp route
              s.certificates ts },
      ts.map Effect.writeCertificate) := by
  unfold batchUpdateBaseRoute at hstep
  split at hstep
  case isFalse => exact absurd hstep (by simp)
  split at hstep
  case isFalse => exact absurd hstep (by simp)
  split at hstep
  case isTrue => exact absurd hstep (by simp)
  simp only [Except.ok.injEq] at hstep
  exact hstep.symm

theorem pause_ok_elim {ctx : Ctx} {s : CMState} {r : CMState × List Effect}
    (hstep : pauseOp ctx s = .ok r) : r = ({ s with paused := true }, []) := by
  unfold pauseOp at hstep
  split at hstep
  case isFalse => exact absurd hstep (by simp)
  split at hstep
  case isTrue => exact absurd hstep (by simp)
  simp only [Except.ok.injEq] at hstep
  exact hstep.symm

theorem unpause_ok_elim {ctx : Ctx} {s : CMState} {r : CMState × List Effect}
    (hstep : unpauseOp ctx s = .ok r) : r = ({ s with paused := false }, []) := by
  unfold unpauseOp at hstep
  split at hstep
  case isFalse => exact absurd hstep (by simp)
  split at hstep
  case isFalse => exact absurd hstep (by simp)
  simp only [Except.ok.injEq] at hstep
  exact hstep.symm

theorem approve_ok_elim {ctx : Ctx} {s : CMState} {o : Nat} {a : Bool}
    {r : CMState × List Effect} (hstep : setApprovalForAll ctx s o a = .ok r) :
    r = ({ s with operatorApprovals := fupd2 s.operatorApprovals ctx.sender o a }, []) := by
  unfold setApprovalForAll at hstep
  split at hstep
  case isTrue => exact absurd hstep (by simp)
  simp only [Except.ok.injEq] at hstep
  exact hstep.symm

theorem safeTransferFrom_never_ok {ctx : Ctx} {s : CMState} {srcAddr dstAddr tid amount : Nat}
    {r : CMState × List Effect} (hstep : safeTransferFrom ctx s srcAddr dstAddr tid amount = .ok r) :
    False := by
  unfold safeTransferFrom at hstep
  split at hstep <;> try exact absurd hstep (by simp)
  split at hstep <;> try exact absurd hstep (by simp)
  split at hstep <;> exact absurd hstep (by simp)

/-! ### Projection lemmas for the write-and-settle sequences -/

@[simp] theorem mintWrites_fst_used (env : Env) (ctx : Ctx) (s : CMState)
    (c : Nat) (n i : String) (h : Nat) (b : String) :
    (mintWrites env ctx s c n i h b).1.usedPaymentHashes = fupd s.usedPaymentHashes h true := rfl

@[simp] theorem mintWrites_fst_nextTokenId (env : Env) (ctx : Ctx) (s : CMState)
    (c : Nat) (n i : String) (h : Nat) (b : String) :
    (mintWrites env ctx s c n i h b).1.nextTokenId = s.nextTokenId + 1 := rfl

@[simp] theorem mintWrites_fst_certificates (env : Env) (ctx : Ctx) (s : CMState)
    (c : Nat) (n i : String) (h : Nat) (b : String) :
    (mintWrites env ctx s c n i h b).1.certificates =
      fupd s.certificates s.nextTokenId (some (mintCert ctx s c n i h b)) := rfl

@[simp] theorem mintWrites_fst_userCertificates (env : Env) (ctx : Ctx) (s : CMState)
    (c : Nat) (n i : String) (h : Nat) (b : String) :
    (mintWrites env ctx s c n i h b).1.userCertificates =
      fupd s.userCertificates ctx.sender s.nextTokenId := rfl

@[simp] theorem addCourseWrites_fst_used (env : Env) (ctx : Ctx) (s : CMState)
    (t c : Nat) (i : String) (h : Nat) :
    (addCourseWrites env ctx s t c i h).1.usedPaymentHashes =
      fupd s.usedPaymentHashes h true := rfl

@[simp] theorem addCourseWrites_fst_nextTokenId (env : Env) (ctx : Ctx) (s : CMState)
    (t c : Nat) (i : String) (h : Nat) :
    (addCourseWrites env ctx s t c i h).1.nextTokenId = s.nextTokenId := rfl

@[simp] theorem addCourseWrites_fst_certificates (env : Env) (ctx : Ctx) (s : CMState)
    (t c : Nat) (i : String) (h : Nat) :
    (addCourseWrites env ctx s t c i h).1.certificates =
      fupd s.certificates t
        (some { (getCert s t) with
                completedCourses := (getCert s t).completedCourses ++ [c]
                totalCoursesCompleted := (getCert s t).totalCoursesCompleted + 1
                lastUpdated := ctx.timestamp
                ipfsCID := i
                paymentReceiptHash := h }) := rfl

@[simp] theorem addCourseWrites_fst_userCertificates (env : Env) (ctx : Ctx) (s : CMState)
    (t c : Nat) (i : String) (h : Nat) :
    (addCourseWrites env ctx s t c i h).1.userCertificates = s.userCertificates := rfl

@[simp] theorem updateWrites_fst_used (ctx : Ctx) (s : CMState)
    (t : Nat) (i : String) (h : Nat) :
    (updateWrites ctx s t i h).1.usedPaymentHashes = fupd s.usedPaymentHashes h true := rfl

@[simp] theorem updateWrites_fst_nextTokenId (ctx : Ctx) (s : CMState)
    (t : Nat) (i : String) (h : Nat) :
    (updateWrites ctx s t i h).1.nextTokenId = s.nextTokenId := rfl

@[simp] theorem updateWrites_fst_certificates (ctx : Ctx) (s : CMState)
    (t : Nat) (i : String) (h : Nat) :
    (updateWrites ctx s t i h).1.certificates =
      fupd s.certificates t
        (some { (getCert s t) with
                ipfsCID := i
                paymentReceiptHash := h
                lastUpdated := ctx.timestamp }) := rfl

@[simp] theorem updateWrites_fst_userCertificates (ctx : Ctx) (s : CMState)
    (t : Nat) (i : String) (h : Nat) :
    (updateWrites ctx s t i h).1.userCertificates = s.userCertificates := rfl

@[simp] theorem batchWrites_fst_used (ctx : Ctx) (s : CMState)
    (t : Nat) (cs : List Nat) (i : String) (h : Nat) :
    (batchWrites ctx s t cs i h).1.usedPaymentHashes = fupd s.usedPaymentHashes h true := rfl

@[simp] theorem batchWrites_fst_nextTokenId (ctx : Ctx) (s : CMState)
    (t : Nat) (cs : List Nat) (i : String) (h : Nat) :
    (batchWrites ctx s t cs i h).1.nextTokenId = s.nextTokenId := rfl

@[simp] theorem batchWrites_fst_certificates (ctx : Ctx) (s : CMState)
    (t : Nat) (cs : List Nat) (i : String) (h : Nat) :
    (batchWrites ctx s t cs i h).1.certificates =
      fupd s.certificates t
        (some { (getCert s t) with
                completedCourses := (getCert s t).completedCourses ++ cs
                totalCoursesCompleted := (getCert s t).totalCoursesCompleted + cs.length
                lastUpdated := ctx.timestamp
                ipfsCID := i
                paymentReceiptHash := h }) := rfl

@[simp] theorem batchWrites_fst_userCertificates (ctx : Ctx) (s : CMState)
    (t : Nat) (cs : List Nat) (i : String) (h : Nat) :
    (batchWrites ctx s t cs i h).1.userCertificates = s.userCertificates := rfl

/-! ### Replay-guard behaviour of a step -/

theorem fupd_true_of {f : Nat → Bool} (k : Nat) {X : Nat} (h : f X = true) :
    fupd f k true X = true := by
  by_cases hx : X = k <;> simp [fupd_apply, hx, h]

/-- A successful call keeps every already-used hash used, and when the
call presents a hash it consumes it: the hash was fresh before and is
used afterwards. -/
theorem step_used_facts {env : Env} {s : CMState} {o : Op} {r : CMState × List Effect}
    (hstep : step env s o = .ok r) :
    (∀ X, s.usedPaymentHashes X = true → r.1.usedPaymentHashes X = true) ∧
    (∀ X, opHash o = some X →
      s.usedPaymentHashes X = false ∧ r.1.usedPaymentHashes X = true) := by
  cases o with
  | mintOrUpdate ctx c n i h b =>
    obtain ⟨_, _, _, hUsed, hbr⟩ := mintOrUpdate_ok_elim hstep
    rcases hbr with ⟨_, _, _, rfl⟩ | ⟨_, _, _, _, _, rfl⟩ <;>
      exact ⟨fun X hX => fupd_true_of h hX,
        fun X hX => by
          simp only [opHash, Option.some.injEq] at hX
          subst hX
          exact ⟨hUsed, by simp⟩⟩
  | updateCert ctx t i h =>
    obtain ⟨_, _, _, hUsed, _, _, _, _, rfl⟩ := updateCertificate_ok_elim hstep
    exact ⟨fun X hX => fupd_true_of h hX,
      fun X hX => by
        simp only [opHash, Option.some.injEq] at hX
        subst hX
        exact ⟨hUsed, by simp⟩⟩
  | addMultiple ctx cs i h =>
    obtain ⟨_, _, _, _, hUsed, _, _, _, _, rfl⟩ := addMultiple_ok_elim hstep
    exact ⟨fun X hX => fupd_true_of h hX,
      fun X hX => by
        simp only [opHash, Option.some.injEq] at hX
        subst hX
        exact ⟨hUsed, by simp⟩⟩
  | revoke ctx t =>
    obtain ⟨_, _, rfl⟩ := revoke_ok_elim hstep
    exact ⟨fun X hX => hX, fun X hX => by simp [opHash] at hX⟩
  | setDefCertFee ctx f =>
    obtain rfl := setDefCertFee_ok_elim hstep
    exact ⟨fun X hX => hX, fun X hX => by simp [opHash] at hX⟩
  | setDefAddFee ctx f =>
    obtain rfl := setDefAddFee_ok_elim hstep
    exact ⟨fun X hX => hX, fun X hX => by simp [opHash] at hX⟩
  | setWallet ctx w =>
    obtain rfl := setWallet_ok_elim hstep
    exact ⟨fun X hX => hX, fun X hX => by simp [opHash] at hX⟩
  | setPlatName ctx n =>
    obtain rfl := setPlatName_ok_elim hstep
    exact ⟨fun X hX => hX, fun X hX => by simp [opHash] at hX⟩
  | setCoursePrice ctx c p =>
    obtain rfl := setCoursePrice_ok_elim hstep
    exact ⟨fun X hX => hX, fun X hX => by simp [opHash] at hX⟩
  | setURI ctx t u =>
    obtain rfl := setURI_ok_elim hstep
    exact ⟨fun X hX => hX, fun X hX => by simp [opHash] at hX⟩
  | setRoute ctx t u =>
    obtain ⟨_, rfl⟩ := setRoute_ok_elim hstep
    exact ⟨fun X hX => hX, fun X hX => by simp [opHash] at hX⟩
  | setDefRoute ctx u =>
    obtain rfl := setDefRoute_ok_elim hstep
    exact ⟨fun X hX => hX, fun X hX => by simp [opHash] at hX⟩
  | setMetaURI ctx u =>
    obtain rfl := setMetaURI_ok_elim hstep
    exact ⟨fun X hX => hX, fun X hX => by simp [opHash] at hX⟩
  | batchSetRouteOp ctx ts u =>
    obtain rfl := batchSetRouteOp_ok_elim hstep
    exact ⟨fun X hX => hX, fun X hX => by simp [opHash] at hX⟩
  | pause ctx =>
    obtain rfl := pause_ok_elim hstep
    exact ⟨fun X hX => hX, fun X hX => by simp [opHash] at hX⟩
  | unpause ctx =>
    obtain rfl := unpause_ok_elim hstep
    exact ⟨fun X hX => hX, fun X hX => by simp [opHash] at hX⟩
  | approve ctx op a =>
    obtain rfl := approve_ok_elim hstep
    exact ⟨fun X hX => hX, fun X hX => by simp [opHash] at hX⟩
  | transfer ctx a b c d =>
    exact absurd (show safeTransferFrom ctx s a b c d = .ok r from hstep)
      safeTransferFrom_never_ok

/-- A call that presents an already-used hash can never succeed. -/
theorem step_fails_on_used {env : Env} {s : CMState} {o : Op} {X : Nat}
    (hX : opHash o = some X) (hused : s.usedPaymentHashes X = true) :
    (step env s o).isOk = false := by
  cases hs : step env s o with
  | error e => rfl
  | ok r =>
    have := ((step_used_facts hs).2 X hX).1
    rw [this] at hused
    exact absurd hused (by simp)

/-- An already-used hash keeps its mark across any call, successful or
reverted. -/
theorem stepState_used_mono (env : Env) (s : CMState) (o : Op) {X : Nat}
    (hused : s.usedPaymentHashes X = true) :
    (stepState env s o).usedPaymentHashes X = true := by
  unfold stepState
  cases hs : step env s o with
  | error e => exact hused
  | ok r => exact (step_used_facts hs).1 X hused

/-- When the guards that run before the replay check pass, presenting an
already-used hash reverts with exactly `PaymentHashAlreadyUsed`. -/
theorem step_replay_error {env : Env} {s : CMState} {o : Op} {X : Nat}
    (hX0 : X ≠ 0) (hguard : guardsOK s o) (hX : opHash o = some X)
    (hused : s.usedPaymentHashes X = true) :
    errorOf (step env s o) = some .PaymentHashAlreadyUsed := by
  cases o with
  | mintOrUpdate ctx c n i h b =>
    obtain ⟨hP, hC⟩ := hguard
    simp only [opHash, Option.some.injEq] at hX
    subst hX
    simp [step, mintOrUpdateCertificate, hP, hC, hX0, hused, errorOf]
  | updateCert ctx t i h =>
    obtain ⟨hP, hC⟩ := hguard
    simp only [opHash, Option.some.injEq] at hX
    subst hX
    simp [step, updateCertificate, hP, hC, hX0, hused, errorOf]
  | addMultiple ctx cs i h =>
    obtain ⟨hP, hC, hne⟩ := hguard
    simp only [opHash, Option.some.injEq] at hX
    subst hX
    simp [step, addMultipleCoursesToCertificate, hP, hC, hne, hX0, hused, errorOf]
  | revoke ctx t => simp [opHash] at hX
  | setDefCertFee ctx f => simp [opHash] at hX
  | setDefAddFee ctx f => simp [opHash] at hX
  | setWallet ctx w => simp [opHash] at hX
  | setPlatName ctx n => simp [opHash] at hX
  | setCoursePrice ctx c p => simp [opHash] at hX
  | setURI ctx t u => simp [opHash] at hX
  | setRoute ctx t u => simp [opHash] at hX
  | setDefRoute ctx u => simp [opHash] at hX
  | setMetaURI ctx u => simp [opHash] at hX
  | batchSetRouteOp ctx ts u => simp [opHash] at hX
  | pause ctx => simp [opHash] at hX
  | unpause ctx => simp [opHash] at hX
  | approve ctx op a => simp [opHash] at hX
  | transfer ctx a b c d => simp [opHash] at hX

/-- Once a hash is used, no later call in a run consumes it again. -/
theorem countConsumes_zero_of_used {X : Nat} {s : CMState} (l : List (Env × Op))
    (h : s.usedPaymentHashes X = true) : countConsumes X s l = 0 := by
  induction l generalizing s with
  | nil => rfl
  | cons p rest ih =>
    obtain ⟨env, o⟩ := p
    unfold countConsumes
    rw [ih (stepState_used_mono env s o h)]
    have : ¬((step env s o).isOk = true ∧ opHash o = some X) := by
      rintro ⟨hok, hX⟩
      rw [step_fails_on_used hX h] at hok
      exact absurd hok (by simp)
    simp [this]

/-- Any run consumes a given payment hash at most once. -/
theorem countConsumes_le_one (X : Nat) (s : CMState) (l : List (Env × Op)) :
    countConsumes X s l ≤ 1 := by
  induction l generalizing s with
  | nil => exact Nat.zero_le 1
  | cons p rest ih =>
    obtain ⟨env, o⟩ := p
    unfold countConsumes
    by_cases hc : (step env s o).isOk = true ∧ opHash o = some X
    · obtain ⟨hok, hX⟩ := hc
      have hrest : countConsumes X (stepState env s o) rest = 0 := by
        apply countConsumes_zero_of_used
        cases hs : step env s o with
        | error e => rw [hs] at hok; exact absurd hok (by simp [Except.isOk, Except.toBool])
        | ok r =>
          have := ((step_used_facts hs).2 X hX).2
          unfold stepState
          rw [hs]
          exact this
      simp [hok, hX, hrest]
    · have hrest := ih (stepState env s o)
      simp only [hc, if_false]
      omega

/-! ### Ordering of writes and transfers in effect traces -/

theorem writesBeforeTransfers_of_split {w t : List Effect}
    (hw : ∀ e ∈ w, e.isTransfer = false) (ht : ∀ e ∈ t, e.isTransfer = true) :
    writesBeforeTransfers (w ++ t) := ⟨w, t, rfl, hw, ht⟩

theorem writesBeforeTransfers_writes_only {l : List Effect}
    (hw : ∀ e ∈ l, e.isTransfer = false) : writesBeforeTransfers l :=
  ⟨l, [], by simp, hw, by simp⟩

/-- Every successful call's trace is a block of storage writes followed
only by value-transfer legs: no state write ever happens after the
first transfer of settlement. -/
theorem step_ok_writesBeforeTransfers {env : Env} {s : CMState} {o : Op}
    {r : CMState × List Effect} (hstep : step env s o = .ok r) :
    writesBeforeTransfers r.2 := by
  cases o with
  | mintOrUpdate ctx c n i h b =>
    obtain ⟨_, _, _, _, hbr⟩ := mintOrUpdate_ok_elim hstep
    rcases hbr with ⟨_, _, _, rfl⟩ | ⟨_, _, _, _, _, rfl⟩
    · exact writesBeforeTransfers_of_split
        (by intro e he; simp at he; rcases he with h|h|h|h|h <;> simp [h, Effect.isTransfer])
        (processCertificatePayment_all_transfer _ _ _ _ _)
    · refine writesBeforeTransfers_of_split ?_ (processPayment_all_transfer _ _ _ _ _)
      intro e he
      rcases List.mem_append.mp he with h1 | h2
      · simp at h1; rcases h1 with h|h|h <;> simp [h, Effect.isTransfer]
      · split at h2 <;> simp at h2; simp [h2, Effect.isTransfer]
  | updateCert ctx t i h =>
    obtain ⟨_, _, _, _, _, _, _, _, rfl⟩ := updateCertificate_ok_elim hstep
    exact writesBeforeTransfers_of_split
      (by intro e he; simp at he; rcases he with h|h <;> simp [h, Effect.isTransfer])
      (processCertificatePayment_all_transfer _ _ _ _ _)
  | addMultiple ctx cs i h =>
    obtain ⟨_, _, _, _, _, _, _, _, _, rfl⟩ := addMultiple_ok_elim hstep
    show writesBeforeTransfers
      ((([Effect.markPaymentHash h]
        ++ cs.flatMap (fun c =>
            [Effect.writeCertificate (s.userCertificates ctx.sender),
             Effect.writeCourseExists (s.userCertificates ctx.sender) c])
        ++ [Effect.writeCertificate (s.userCertificates ctx.sender)]))
        ++ _processCertificatePayment s.platformWallet s.platformWallet
            (s.defaultCourseAdditionFee * cs.length) ctx.value ctx.sender)
    refine writesBeforeTransfers_of_split ?_ (processCertificatePayment_all_transfer _ _ _ _ _)
    intro e he
    rcases List.mem_append.mp he with h1 | h2
    · rcases List.mem_append.mp h1 with h3 | h4
      · simp at h3; simp [h3, Effect.isTransfer]
      · obtain ⟨c, _, hc⟩ := List.mem_flatMap.mp h4
        simp at hc; rcases hc with h|h <;> simp [h, Effect.isTransfer]
    · simp at h2; simp [h2, Effect.isTransfer]
  | revoke ctx t =>
    obtain ⟨_, _, rfl⟩ := revoke_ok_elim hstep
    exact writesBeforeTransfers_writes_only
      (by intro e he; simp at he; simp [he, Effect.isTransfer])
  | setDefCertFee ctx f =>
    obtain rfl := setDefCertFee_ok_elim hstep
    exact writesBeforeTransfers_writes_only (by intro e he; simp at he)
  | setDefAddFee ctx f =>
    obtain rfl := setDefAddFee_ok_elim hstep
    exact writesBeforeTransfers_writes_only (by intro e he; simp at he)
  | setWallet ctx w =>
    obtain rfl := setWallet_ok_elim hstep
    exact writesBeforeTransfers_writes_only (by intro e he; simp at he)
  | setPlatName ctx n =>
    obtain rfl := setPlatName_ok_elim hstep
    exact writesBeforeTransfers_writes_only (by intro e he; simp at he)
  | setCoursePrice ctx c p =>
    obtain rfl := setCoursePrice_ok_elim hstep
    exact writesBeforeTransfers_writes_only (by intro e he; simp at he)
  | setURI ctx t u =>
    obtain rfl := setURI_ok_elim hstep
    exact writesBeforeTransfers_writes_only (by intro e he; simp at he)
  | setRoute ctx t u =>
    obtain ⟨_, rfl⟩ := setRoute_ok_elim hstep
    exact writesBeforeTransfers_writes_only
      (by intro e he; simp at he; simp [he, Effect.isTransfer])
  | setDefRoute ctx u =>
    obtain rfl := setDefRoute_ok_elim hstep
    exact writesBeforeTransfers_writes_only (by intro e he; simp at he)
  | setMetaURI ctx u =>
    obtain rfl := setMetaURI_ok_elim hstep
    exact writesBeforeTransfers_writes_only (by intro e he; simp at he)
  | batchSetRouteOp ctx ts u =>
    obtain rfl := batchSetRouteOp_ok_elim hstep
    exact writesBeforeTransfers_writes_only
      (by intro e he
          simp only [List.mem_map] at he
          obtain ⟨t, _, rfl⟩ := he
          simp [Effect.isTransfer])
  | pause ctx =>
    obtain rfl := pause_ok_elim hstep
    exact writesBeforeTransfers_writes_only (by intro e he; simp at he)
  | unpause ctx =>
    obtain rfl := unpause_ok_elim hstep
    exact writesBeforeTransfers_writes_only (by intro e he; simp at he)
  | approve ctx op a =>
    obtain rfl := approve_ok_elim hstep
    exact writesBeforeTransfers_writes_only (by intro e he; simp at he)
  | transfer ctx a b c d =>
    exact absurd (show safeTransferFrom ctx s a b c d = .ok r from hstep)
      safeTransferFrom_never_ok

/-! ### The ledger invariant -/

/-- The structural invariant tying together token allocation, the
record store and the per-user map:
ids are allocated from 1 consecutively; every allocated id holds a
record and no other id does; a record's `tokenId` field matches its
key and its owner's `userCertificates` entry points back at it; a
nonzero `userCertificates` entry points at a record owned by that user. -/
structure InvT (next : Nat) (certs : Nat → Option Certificate)
    (ucerts : Nat → Nat) : Prop where
  one_le_next : 1 ≤ next
  none_of_ge : ∀ t, next ≤ t → certs t = none
  none_zero : certs 0 = none
  isSome_of_lt : ∀ t, 0 < t → t < next → (certs t).isSome = true
  backlink : ∀ t c, certs t = some c → c.tokenId = t ∧ ucerts c.recipientAddress = t
  userlink : ∀ a, ucerts a = 0 ∨
    ∃ c, certs (ucerts a) = some c ∧ c.recipientAddress = a

/-- The invariant, read off a full contract state. -/
def LedgerInv (s : CMState) : Prop :=
  InvT s.nextTokenId s.certificates s.userCertificates

theorem LedgerInv_initState (deployer platformWallet : Nat)
    (initialBaseRoute platformName : String) :
    LedgerInv (initState deployer platformWallet initialBaseRoute platformName) := by
  refine ⟨Nat.le_refl 1, fun t _ => rfl, rfl, ?_,
    fun t c h => by simp [initState] at h, fun a => Or.inl rfl⟩
  intro t h0 h1
  simp only [initState] at h1
  omega

/-- A record known to be present can be read back through `getCert`. -/
theorem certificates_eq_getCert {s : CMState} {t : Nat} {c : Certificate}
    (h : s.certificates t = some c) : getCert s t = c := by
  simp [getCert, h]

/-- A `getCert` result with `isValid = true` cannot be the default
struct, so the record is genuinely present. -/
theorem getCert_some_of_isValid {s : CMState} {t : Nat}
    (h : (getCert s t).isValid = true) :
    s.certificates t = some (getCert s t) := by
  cases hc : s.certificates t with
  | none =>
    rw [getCert, hc] at h
    exact absurd h (by simp [defaultCertificate])
  | some c => simp [getCert, hc]

/-- Overwriting a present record with one that keeps the `tokenId` and
`recipientAddress` fields preserves the invariant. -/
theorem InvT.overwrite {next : Nat} {certs : Nat → Option Certificate}
    {ucerts : Nat → Nat} (h : InvT next certs ucerts) {t : Nat}
    {cnew c0 : Certificate} (h0 : certs t = some c0)
    (htok : cnew.tokenId = c0.tokenId)
    (hrecip : cnew.recipientAddress = c0.recipientAddress) :
    InvT next (fupd certs t (some cnew)) ucerts := by
  have ht_lt : t < next := by
    by_contra hge
    rw [h.none_of_ge t (Nat.le_of_not_lt hge)] at h0
    exact absurd h0 (by simp)
  have ht_ne0 : t ≠ 0 := by
    intro h'
    rw [h', h.none_zero] at h0
    exact absurd h0 (by simp)
  obtain ⟨htok0, hlink0⟩ := h.backlink t c0 h0
  refine ⟨h.one_le_next, ?_, ?_, ?_, ?_, ?_⟩
  · intro x hx
    rw [fupd_ne _ _ _ _ (by omega)]
    exact h.none_of_ge x hx
  · rw [fupd_ne _ _ _ _ (by omega)]
    exact h.none_zero
  · intro x h0x hxn
    by_cases hxt : x = t
    · subst hxt; simp
    · rw [fupd_ne _ _ _ _ hxt]
      exact h.isSome_of_lt x h0x hxn
  · intro x c hx
    by_cases hxt : x = t
    · subst hxt
      rw [fupd_same] at hx
      cases hx
      rw [htok, hrecip, htok0]
      exact ⟨rfl, hlink0⟩
    · rw [fupd_ne _ _ _ _ hxt] at hx
      exact h.backlink x c hx
  · intro a
    rcases h.userlink a with ha | ⟨c, hc, hr⟩
    · exact Or.inl ha
    · by_cases hat : ucerts a = t
      · refine Or.inr ⟨cnew, ?_, ?_⟩
        · rw [hat, fupd_same]
        · rw [hat] at hc
          rw [hc] at h0
          cases h0
          rw [hrecip, hr]
      · exact Or.inr ⟨c, by rw [fupd_ne _ _ _ _ hat]; exact hc, hr⟩

/-- Creating a fresh record at the next token id for a user without one
preserves the invariant. -/
theorem InvT.mint {next : Nat} {certs : Nat → Option Certificate}
    {ucerts : Nat → Nat} (h : InvT next certs ucerts) {sender : Nat}
    {cnew : Certificate} (hU : ucerts sender = 0)
    (htok : cnew.tokenId = next) (hrecip : cnew.recipientAddress = sender) :
    InvT (next + 1) (fupd certs next (some cnew)) (fupd ucerts sender next) := by
  have hfresh : certs next = none := h.none_of_ge next (Nat.le_refl next)
  refine ⟨by omega, ?_, ?_, ?_, ?_, ?_⟩
  · intro x hx
    rw [fupd_ne _ _ _ _ (by omega)]
    exact h.none_of_ge x (by omega)
  · have := h.one_le_next
    rw [fupd_ne _ _ _ _ (by omega)]
    exact h.none_zero
  · intro x h0x hxn
    by_cases hxt : x = next
    · subst hxt; simp
    · rw [fupd_ne _ _ _ _ hxt]
      exact h.isSome_of_lt x h0x (by omega)
  · intro x c hx
    by_cases hxt : x = next
    · subst hxt
      rw [fupd_same] at hx
      cases hx
      rw [htok, hrecip, fupd_same]
      exact ⟨rfl, rfl⟩
    · rw [fupd_ne _ _ _ _ hxt] at hx
      obtain ⟨ht, hl⟩ := h.backlink x c hx
      refine ⟨ht, ?_⟩
      have hne : c.recipientAddress ≠ sender := by
        intro he
        rw [he, hU] at hl
        have hx0 : x ≠ 0 := by
          intro h'
          rw [h', h.none_zero] at hx
          exact absurd hx (by simp)
        exact hx0 hl.symm
      rw [fupd_ne _ _ _ _ hne]
      exact hl
  · intro a
    by_cases has : a = sender
    · subst has
      refine Or.inr ⟨cnew, ?_, hrecip⟩
      rw [fupd_same, fupd_same]
    · rw [fupd_ne _ _ _ _ has]
      rcases h.userlink a with ha | ⟨c, hc, hr⟩
      · exact Or.inl ha
      · refine Or.inr ⟨c, ?_, hr⟩
        have : ucerts a ≠ next := by
          intro he
          rw [he, hfresh] at hc
          exact absurd hc (by simp)
        rw [fupd_ne _ _ _ _ this]
        exact hc

/-- A present entry can be written back through `getCert`. -/
theorem certificates_some_of_isSome {s : CMState} {t : Nat}
    (h : (s.certificates t).isSome = true) :
    s.certificates t = some (getCert s t) := by
  cases hc : s.certificates t with
  | none => rw [hc] at h; exact absurd h (by simp)
  | some c => simp [getCert, hc]

/-- `existsTok` decoded. -/
theorem existsTok_iff {s : CMState} {t : Nat} :
    s.existsTok t = true ↔ 0 < t ∧ t < s.nextTokenId := by
  simp [CMState.existsTok]

/-- Each entry after the `batchUpdateBaseRoute` loop is either untouched
or the refreshed version of the prior entry at an allocated id. -/
theorem batchSetRoute_spec (n ts : Nat) (route : String) (l : List Nat) :
    ∀ (certs : Nat → Option Certificate) (x : Nat),
      batchSetRoute n ts route certs l x = certs x ∨
      (0 < x ∧ x < n ∧
        batchSetRoute n ts route certs l x =
          some { ((certs x).getD defaultCertificate) with
                 baseRoute := route, lastUpdated := ts }) := by
  induction l with
  | nil => intro certs x; exact Or.inl rfl
  | cons t rest ih =>
    intro certs x
    unfold batchSetRoute
    have hc1 : ∀ certs1 : Nat → Option Certificate,
        (certs1 = if 0 < t ∧ t < n then
          fupd certs t (some { ((certs t).getD defaultCertificate) with
                               baseRoute := route, lastUpdated := ts })
          else certs) →
        certs1 x = certs x ∨
        (0 < x ∧ x < n ∧ certs1 x =
          some { ((certs x).getD defaultCertificate) with
                 baseRoute := route, lastUpdated := ts }) := by
      intro certs1 h1
      by_cases hcond : 0 < t ∧ t < n
      · by_cases hxt : x = t
        · subst hxt
          right
          exact ⟨hcond.1, hcond.2, by rw [h1, if_pos hcond, fupd_same]⟩
        · left
          rw [h1, if_pos hcond, fupd_ne _ _ _ _ hxt]
      · left
        rw [h1, if_neg hcond]
    rcases ih _ x with h | ⟨p1, p2, h⟩ <;>
      rcases hc1 _ rfl with h' | ⟨q1, q2, h'⟩
    · exact Or.inl (h.trans h')
    · exact Or.inr ⟨q1, q2, h.trans h'⟩
    · rw [h'] at h
      exact Or.inr ⟨p1, p2, h⟩
    · rw [h'] at h
      refine Or.inr ⟨p1, p2, ?_⟩
      simpa using h

theorem InvT.batchRoute {next ts : Nat} {route : String}
    {certs : Nat → Option Certificate} {ucerts : Nat → Nat}
    (h : InvT next certs ucerts) (l : List Nat) :
    InvT next (batchSetRoute next ts route certs l) ucerts := by
  refine ⟨h.one_le_next, ?_, ?_, ?_, ?_, ?_⟩
  · intro x hx
    rcases batchSetRoute_spec next ts route l certs x with he | ⟨_, hlt, _⟩
    · rw [he]; exact h.none_of_ge x hx
    · omega
  · rcases batchSetRoute_spec next ts route l certs 0 with he | ⟨h0, _, _⟩
    · rw [he]; exact h.none_zero
    · omega
  · intro x h0x hxn
    rcases batchSetRoute_spec next ts route l certs x with he | ⟨_, _, he⟩
    · rw [he]; exact h.isSome_of_lt x h0x hxn
    · rw [he]; rfl
  · intro x c hx
    rcases batchSetRoute_spec next ts route l certs x with he | ⟨h0x, hxn, he⟩
    · rw [he] at hx; exact h.backlink x c hx
    · rw [he] at hx
      obtain ⟨c0, hc0⟩ := Option.isSome_iff_exists.mp (h.isSome_of_lt x h0x hxn)
      rw [hc0] at hx
      simp only [Option.getD_some, Option.some.injEq] at hx
      subst hx
      simpa using h.backlink x c0 hc0
  · intro a
    rcases h.userlink a with ha | ⟨c, hc, hr⟩
    · exact Or.inl ha
    · rcases batchSetRoute_spec next ts route l certs (ucerts a) with he | ⟨_, _, he⟩
      · exact Or.inr ⟨c, by rw [he]; exact hc, hr⟩
      · rw [hc] at he
        simp only [Option.getD_some] at he
        exact Or.inr ⟨_, he, by simpa using hr⟩

/-- Every successful call preserves the ledger invariant. -/
theorem LedgerInv_step {env : Env} {s : CMState} {o : Op} {r : CMState × List Effect}
    (hInv : LedgerInv s) (hstep : step env s o = .ok r) : LedgerInv r.1 := by
  cases o with
  | mintOrUpdate ctx c n i h b =>
    obtain ⟨_, _, _, _, hbr⟩ := mintOrUpdate_ok_elim hstep
    rcases hbr with ⟨hUser, _, _, rfl⟩ | ⟨_, _, _, hValid, _, rfl⟩
    · simp only [LedgerInv, mintWrites_fst_nextTokenId, mintWrites_fst_certificates,
        mintWrites_fst_userCertificates]
      exact hInv.mint hUser rfl rfl
    · simp only [LedgerInv, addCourseWrites_fst_nextTokenId, addCourseWrites_fst_certificates,
        addCourseWrites_fst_userCertificates]
      exact hInv.overwrite (getCert_some_of_isValid hValid) rfl rfl
  | updateCert ctx t i h =>
    obtain ⟨_, _, _, _, _, _, hValid, _, rfl⟩ := updateCertificate_ok_elim hstep
    simp only [LedgerInv, updateWrites_fst_nextTokenId, updateWrites_fst_certificates,
      updateWrites_fst_userCertificates]
    exact hInv.overwrite (getCert_some_of_isValid hValid) rfl rfl
  | addMultiple ctx cs i h =>
    obtain ⟨_, _, _, _, _, _, hValid, _, _, rfl⟩ := addMultiple_ok_elim hstep
    simp only [LedgerInv, batchWrites_fst_nextTokenId, batchWrites_fst_certificates,
      batchWrites_fst_userCertificates]
    exact hInv.overwrite (getCert_some_of_isValid hValid) rfl rfl
  | revoke ctx t =>
    obtain ⟨_, hTok, rfl⟩ := revoke_ok_elim hstep
    obtain ⟨h0t, hlt⟩ := existsTok_iff.mp hTok
    exact hInv.overwrite (certificates_some_of_isSome (hInv.isSome_of_lt t h0t hlt)) rfl rfl
  | setDefCertFee ctx f => obtain rfl := setDefCertFee_ok_elim hstep; exact hInv
  | setDefAddFee ctx f => obtain rfl := setDefAddFee_ok_elim hstep; exact hInv
  | setWallet ctx w => obtain rfl := setWallet_ok_elim hstep; exact hInv
  | setPlatName ctx n => obtain rfl := setPlatName_ok_elim hstep; exact hInv
  | setCoursePrice ctx c p => obtain rfl := setCoursePrice_ok_elim hstep; exact hInv
  | setURI ctx t u => obtain rfl := setURI_ok_elim hstep; exact hInv
  | setRoute ctx t u =>
    obtain ⟨hTok, rfl⟩ := setRoute_ok_elim hstep
    obtain ⟨h0t, hlt⟩ := existsTok_iff.mp hTok
    exact hInv.overwrite (certificates_some_of_isSome (hInv.isSome_of_lt t h0t hlt)) rfl rfl
  | setDefRoute ctx u => obtain rfl := setDefRoute_ok_elim hstep; exact hInv
  | setMetaURI ctx u => obtain rfl := setMetaURI_ok_elim hstep; exact hInv
  | batchSetRouteOp ctx ts u =>
    obtain rfl := batchSetRouteOp_ok_elim hstep
    exact hInv.batchRoute ts
  | pause ctx => obtain rfl := pause_ok_elim hstep; exact hInv
  | unpause ctx => obtain rfl := unpause_ok_elim hstep; exact hInv
  | approve ctx op a => obtain rfl := approve_ok_elim hstep; exact hInv
  | transfer ctx a b c d =>
    exact absurd (show safeTransferFrom ctx s a b c d = .ok r from hstep)
      safeTransferFrom_never_ok

/-- Any call, successful or reverted, preserves the invariant. -/
theorem LedgerInv_stepState (env : Env) (s : CMState) (o : Op)
    (hInv : LedgerInv s) : LedgerInv (stepState env s o) := by
  unfold stepState
  cases hs : step env s o with
  | error e => exact hInv
  | ok r => exact LedgerInv_step hInv hs

/-- The invariant holds in every reachable state. -/
theorem LedgerInv_reachable {s0 s : CMState} (h0 : LedgerInv s0)
    (h : ReachableFrom s0 s) : LedgerInv s := by
  induction h with
  | refl => exact h0
  | step env o _ ih => exact LedgerInv_stepState env _ o ih

/-- Two records with the same owner are the same record. -/
theorem LedgerInv.unique_owner {s : CMState} (hInv : LedgerInv s) :
    ∀ t1 t2 c1 c2, s.certificates t1 = some c1 → s.certificates t2 = some c2 →
      c1.recipientAddress = c2.recipientAddress → t1 = t2 := by
  intro t1 t2 c1 c2 h1 h2 hr
  have b1 := (hInv.backlink t1 c1 h1).2
  have b2 := (hInv.backlink t2 c2 h2).2
  rw [hr] at b1
  rw [b2] at b1
  exact b1.symm

/-- `userCertificates u = 0` exactly when no record is owned by `u`. -/
theorem LedgerInv.userCert_zero_iff {s : CMState} (hInv : LedgerInv s) (u : Nat) :
    s.userCertificates u = 0 ↔
      ∀ t c, s.certificates t = some c → c.recipientAddress ≠ u := by
  constructor
  · intro h0 t c hc hr
    have hb := (hInv.backlink t c hc).2
    rw [hr, h0] at hb
    rw [← hb, hInv.none_zero] at hc
    exact absurd hc (by simp)
  · intro hno
    rcases hInv.userlink u with h | ⟨c, hc, hr⟩
    · exact h
    · exact absurd hr (hno _ c hc)

/-- `_exists` coincides with actual record presence. -/
theorem LedgerInv.existsTok_iff_isSome {s : CMState} (hInv : LedgerInv s) (t : Nat) :
    s.existsTok t = true ↔ (s.certificates t).isSome = true := by
  rw [existsTok_iff]
  constructor
  · intro ⟨h0, hlt⟩
    exact hInv.isSome_of_lt t h0 hlt
  · intro h
    constructor
    · rcases Nat.eq_zero_or_pos t with rfl | h0
      · rw [hInv.none_zero] at h; exact absurd h (by simp)
      · exact h0
    · by_contra hge
      rw [hInv.none_of_ge t (Nat.le_of_not_lt hge)] at h
      exact absurd h (by simp)

/-- A record overwrite that keeps the owner field preserves every
record's owner. -/
theorem owner_preserved_fupd {s : CMState} {tok : Nat} {cnew : Certificate} :
    ∀ t c c', s.certificates t = some c →
      fupd s.certificates tok (some cnew) t = some c' →
      cnew.recipientAddress = (getCert s tok).recipientAddress →
      c'.recipientAddress = c.recipientAddress := by
  intro t c c' hc hc' hrecip
  by_cases ht : t = tok
  · subst ht
    rw [fupd_same] at hc'
    cases hc'
    rw [hrecip, certificates_eq_getCert hc]
  · rw [fupd_ne _ _ _ _ ht] at hc'
    rw [hc] at hc'
    cases hc'
    rfl

/-- No successful call ever changes the owner of an existing record. -/
theorem step_owner_preserved {env : Env} {s : CMState} {o : Op}
    {r : CMState × List Effect} (hInv : LedgerInv s) (hstep : step env s o = .ok r) :
    ∀ t c c', s.certificates t = some c → r.1.certificates t = some c' →
      c'.recipientAddress = c.recipientAddress := by
  cases o with
  | mintOrUpdate ctx c n i h b =>
    obtain ⟨_, _, _, _, hbr⟩ := mintOrUpdate_ok_elim hstep
    rcases hbr with ⟨_, _, _, rfl⟩ | ⟨_, _, _, _, _, rfl⟩
    · intro t c1 c1' hc hc'
      simp only [mintWrites_fst_certificates] at hc'
      have ht : t ≠ s.nextTokenId := by
        intro he
        rw [he, hInv.none_of_ge _ (Nat.le_refl _)] at hc
        exact absurd hc (by simp)
      rw [fupd_ne _ _ _ _ ht, hc] at hc'
      cases hc'
      rfl
    · intro t c1 c1' hc hc'
      simp only [addCourseWrites_fst_certificates] at hc'
      exact owner_preserved_fupd t c1 c1' hc hc' rfl
  | updateCert ctx t i h =>
    obtain ⟨_, _, _, _, _, _, _, _, rfl⟩ := updateCertificate_ok_elim hstep
    intro x c1 c1' hc hc'
    simp only [updateWrites_fst_certificates] at hc'
    exact owner_preserved_fupd x c1 c1' hc hc' rfl
  | addMultiple ctx cs i h =>
    obtain ⟨_, _, _, _, _, _, _, _, _, rfl⟩ := addMultiple_ok_elim hstep
    intro x c1 c1' hc hc'
    simp only [batchWrites_fst_certificates] at hc'
    exact owner_preserved_fupd x c1 c1' hc hc' rfl
  | revoke ctx t =>
    obtain ⟨_, _, rfl⟩ := revoke_ok_elim hstep
    intro x c1 c1' hc hc'
    exact owner_preserved_fupd x c1 c1' hc hc' rfl
  | setDefCertFee ctx f =>
    obtain rfl := setDefCertFee_ok_elim hstep
    intro x c1 c1' hc hc'
    rw [hc] at hc'; cases hc'; rfl
  | setDefAddFee ctx f =>
    obtain rfl := setDefAddFee_ok_elim hstep
    intro x c1 c1' hc hc'
    rw [hc] at hc'; cases hc'; rfl
  | setWallet ctx w =>
    obtain rfl := setWallet_ok_elim hstep
    intro x c1 c1' hc hc'
    rw [hc] at hc'; cases hc'; rfl
  | setPlatName ctx n =>
    obtain rfl := setPlatName_ok_elim hstep
    intro x c1 c1' hc hc'
    rw [hc] at hc'; cases hc'; rfl
  | setCoursePrice ctx c p =>
    obtain rfl := setCoursePrice_ok_elim hstep
    intro x c1 c1' hc hc'
    rw [hc] at hc'; cases hc'; rfl
  | setURI ctx t u =>
    obtain rfl := setURI_ok_elim hstep
    intro x c1 c1' hc hc'
    rw [hc] at hc'; cases hc'; rfl
  | setRoute ctx t u =>
    obtain ⟨_, rfl⟩ := setRoute_ok_elim hstep
    intro x c1 c1' hc hc'
    exact owner_preserved_fupd x c1 c1' hc hc' rfl
  | setDefRoute ctx u =>
    obtain rfl := setDefRoute_ok_elim hstep
    intro x c1 c1' hc hc'
    rw [hc] at hc'; cases hc'; rfl
  | setMetaURI ctx u =>
    obtain rfl := setMetaURI_ok_elim hstep
    intro x c1 c1' hc hc'
    rw [hc] at hc'; cases hc'; rfl
  | batchSetRouteOp ctx ts u =>
    obtain rfl := batchSetRouteOp_ok_elim hstep
    intro x c1 c1' hc hc'
    rcases batchSetRoute_spec s.nextTokenId ctx.timestamp u ts s.certificates x
      with he | ⟨_, _, he⟩
    · change batchSetRoute _ _ _ _ _ x = some c1' at hc'
      rw [he, hc] at hc'
      cases hc'
      rfl
    · change batchSetRoute _ _ _ _ _ x = some c1' at hc'
      rw [he, hc] at hc'
      simp only [Option.getD_some, Option.some.injEq] at hc'
      subst hc'
      rfl
  | pause ctx =>
    obtain rfl := pause_ok_elim hstep
    intro x c1 c1' hc hc'
    rw [hc] at hc'; cases hc'; rfl
  | unpause ctx =>
    obtain rfl := unpause_ok_elim hstep
    intro x c1 c1' hc hc'
    rw [hc] at hc'; cases hc'; rfl
  | approve ctx op a =>
    obtain rfl := approve_ok_elim hstep
    intro x c1 c1' hc hc'
    rw [hc] at hc'; cases hc'; rfl
  | transfer ctx a b c d =>
    exact absurd (show safeTransferFrom ctx s a b c d = .ok r from hstep)
      safeTransferFrom_never_ok

/-- Token allocation per call: unchanged, or advanced by exactly one
with a fresh record created at the previously next id. -/
theorem step_next_facts {env : Env} {s : CMState} {o : Op}
    {r : CMState × List Effect} (hInv : LedgerInv s) (hstep : step env s o = .ok r) :
    r.1.nextTokenId = s.nextTokenId ∨
    (r.1.nextTokenId = s.nextTokenId + 1 ∧ s.certificates s.nextTokenId = none ∧
      (r.1.certificates s.nextTokenId).isSome = true) := by
  cases o with
  | mintOrUpdate ctx c n i h b =>
    obtain ⟨_, _, _, _, hbr⟩ := mintOrUpdate_ok_elim hstep
    rcases hbr with ⟨_, _, _, rfl⟩ | ⟨_, _, _, _, _, rfl⟩
    · refine Or.inr ⟨rfl, hInv.none_of_ge _ (Nat.le_refl _), ?_⟩
      simp only [mintWrites_fst_certificates, fupd_same]
      rfl
    · exact Or.inl rfl
  | updateCert ctx t i h =>
    obtain ⟨_, _, _, _, _, _, _, _, rfl⟩ := updateCertificate_ok_elim hstep
    exact Or.inl rfl
  | addMultiple ctx cs i h =>
    obtain ⟨_, _, _, _, _, _, _, _, _, rfl⟩ := addMultiple_ok_elim hstep
    exact Or.inl rfl
  | revoke ctx t => obtain ⟨_, _, rfl⟩ := revoke_ok_elim hstep; exact Or.inl rfl
  | setDefCertFee ctx f => obtain rfl := setDefCertFee_ok_elim hstep; exact Or.inl rfl
  | setDefAddFee ctx f => obtain rfl := setDefAddFee_ok_elim hstep; exact Or.inl rfl
  | setWallet ctx w => obtain rfl := setWallet_ok_elim hstep; exact Or.inl rfl
  | setPlatName ctx n => obtain rfl := setPlatName_ok_elim hstep; exact Or.inl rfl
  | setCoursePrice ctx c p => obtain rfl := setCoursePrice_ok_elim hstep; exact Or.inl rfl
  | setURI ctx t u => obtain rfl := setURI_ok_elim hstep; exact Or.inl rfl
  | setRoute ctx t u => obtain ⟨_, rfl⟩ := setRoute_ok_elim hstep; exact Or.inl rfl
  | setDefRoute ctx u => obtain rfl := setDefRoute_ok_elim hstep; exact Or.inl rfl
  | setMetaURI ctx u => obtain rfl := setMetaURI_ok_elim hstep; exact Or.inl rfl
  | batchSetRouteOp ctx ts u =>
    obtain rfl := batchSetRouteOp_ok_elim hstep; exact Or.inl rfl
  | pause ctx => obtain rfl := pause_ok_elim hstep; exact Or.inl rfl
  | unpause ctx => obtain rfl := unpause_ok_elim hstep; exact Or.inl rfl
  | approve ctx op a => obtain rfl := approve_ok_elim hstep; exact Or.inl rfl
  | transfer ctx a b c d =>
    exact absurd (show safeTransferFrom ctx s a b c d = .ok r from hstep)
      safeTransferFrom_never_ok

/-- A record that exists keeps existing across any successful call. -/
theorem step_cert_exists_mono {env : Env} {s : CMState} {o : Op}
    {r : CMState × List Effect} (hInv : LedgerInv s) (hstep : step env s o = .ok r)
    (t : Nat) (h : (s.certificates t).isSome = true) :
    (r.1.certificates t).isSome = true := by
  have hInv' := LedgerInv_step hInv hstep
  have h0t : 0 < t := by
    rcases Nat.eq_zero_or_pos t with rfl | h0
    · rw [hInv.none_zero] at h; exact absurd h (by simp)
    · exact h0
  have hlt : t < s.nextTokenId := by
    by_contra hge
    rw [hInv.none_of_ge t (Nat.le_of_not_lt hge)] at h
    exact absurd h (by simp)
  apply hInv'.isSome_of_lt t h0t
  rcases step_next_facts hInv hstep with he | ⟨he, _, _⟩ <;> omega

/-- Across any sequence of calls, an existing record persists and its
owner never changes. -/
theorem reachable_cert_facts {s s' : CMState} (hInv : LedgerInv s)
    (h : ReachableFrom s s') :
    ∀ t c, s.certificates t = some c →
      ∃ c', s'.certificates t = some c' ∧
        c'.recipientAddress = c.recipientAddress := by
  induction h with
  | refl => exact fun t c hc => ⟨c, hc, rfl⟩
  | step env o hr ih =>
    intro t c hc
    obtain ⟨c', hc', hrec⟩ := ih t c hc
    have hInv' := LedgerInv_reachable hInv hr
    unfold stepState
    cases hs : step env _ o with
    | error e => exact ⟨c', hc', hrec⟩
    | ok r =>
      have hsome : (r.1.certificates t).isSome = true :=
        step_cert_exists_mono hInv' hs t (by rw [hc']; rfl)
      obtain ⟨c'', hc''⟩ := Option.isSome_iff_exists.mp hsome
      exact ⟨c'', hc'', by rw [step_owner_preserved hInv' hs t c' c'' hc' hc'', hrec]⟩

/-- If the batch validation loop passes, every course in the batch was
completed and none was already a member of the record. -/
theorem validateBatch_ok_all {env : Env} {sender tokenId : Nat} {s : CMState}
    {l : List Nat} (h : validateBatch env sender tokenId s l = .ok ()) :
    ∀ c ∈ l, env.isCourseCompleted sender c = true ∧
      s.certificateCourseExists tokenId c = false := by
  induction l with
  | nil => intro c hc; exact absurd hc (List.not_mem_nil c)
  | cons x rest ih =>
    unfold validateBatch at h
    split at h
    case isFalse => exact absurd h (by simp)
    rename_i hcomp
    split at h
    case isTrue => exact absurd h (by simp)
    rename_i hmem
    intro c hc
    rcases List.mem_cons.mp hc with rfl | hc'
    · exact ⟨hcomp, by simpa using hmem⟩
    · exact ih h c hc'

/-- The double-mint re-check: a mint attempt by a principal that
already owns a record reverts with `CertificateAlreadyExists`. -/
theorem mintFirst_already_exists {env : Env} {ctx : Ctx} {s : CMState}
    {courseId : Nat} {n i : String} {hh : Nat} {b : String}
    (hname : validStringLength n 100 = true)
    (hexists : s.userCertificates ctx.sender ≠ 0) :
    errorOf (_mintFirstCertificate env ctx s courseId n i hh b) =
      some .CertificateAlreadyExists := by
  unfold _mintFirstCertificate
  simp [hname, hexists, errorOf]

/-! ### Concrete fixture used by witnesses and counterexamples -/

/-- Oracle fixture: principal 100 has completed courses 5 and 7 and has
held a license for both; every course is created by principal 42 and
has no sections. -/
def envX : Env :=
  { isCourseCompleted := fun u c => decide (u = 100 ∧ (c = 5 ∨ c = 7))
    licenseCourseId := fun u c => if u = 100 ∧ (c = 5 ∨ c = 7) then c else 0
    courseCreator := fun _ => 42
    courseSectionsLen := fun _ => 0
    sectionCompletedAt := fun _ _ _ => 0 }

/-- Freshly deployed contract: deployer 1, platform wallet 2. -/
def s0X : CMState := initState 1 2 "https://verify" "EduVerse"

/-- Principal 100 mints with course 5, attaching exactly the default
certificate fee, payment hash 11. -/
def mintOpX : Op := Op.mintOrUpdate ⟨100, 10 ^ 15, 1000⟩ 5 "Alice" "QmA" 11 ""

/-- The state after the mint (the mint's write-and-settle result). -/
def s1X : CMState := (mintWrites envX ⟨100, 10 ^ 15, 1000⟩ s0X 5 "Alice" "QmA" 11 "").1

/-- `s1X` is the state the mint call steps to. -/
theorem s1X_eq_step : s1X = stepState envX s0X mintOpX := rfl

/-! ### Claim theorems -/

/-- C1: for every payment identifier X, at most one successful mutating
operation in the system's entire history consumes X; a call of
`mintOrUpdateCertificate`, `updateCertificate` or
`addMultipleCoursesToCertificate` presenting an already-used X never
succeeds, and — whenever the checks that run before the replay guard
(pause flag, CID length, non-empty batch) pass — it reverts with
exactly `PaymentHashAlreadyUsed`, regardless of record, principal or
operation. -/
theorem payment_hash_replay_protection :
    (∀ (env : Env) (s : CMState) (o : Op) (X : Nat),
      opHash o = some X → s.usedPaymentHashes X = true →
      (step env s o).isOk = false) ∧
    (∀ (env : Env) (s : CMState) (o : Op) (X : Nat),
      X ≠ 0 → guardsOK s o → opHash o = some X → s.usedPaymentHashes X = true →
      errorOf (step env s o) = some .PaymentHashAlreadyUsed) ∧
    (∀ (X : Nat) (s : CMState) (l : List (Env × Op)), countConsumes X s l ≤ 1) :=
  ⟨fun _ _ _ _ hX hu => step_fails_on_used hX hu,
   fun _ _ _ _ h0 hg hX hu => step_replay_error h0 hg hX hu,
   countConsumes_le_one⟩

/-- Witness for C1: replaying hash 11 (consumed by the mint) on an
append-context call reverts with `PaymentHashAlreadyUsed`. -/
theorem payment_hash_replay_protection_witness :
    errorOf (step envX s1X
      (Op.mintOrUpdate ⟨100, 10 ^ 15, 5000⟩ 7 "Alice" "QmE" 11 "")) =
      some .PaymentHashAlreadyUsed :=
  payment_hash_replay_protection.2.1 envX s1X
    (Op.mintOrUpdate ⟨100, 10 ^ 15, 5000⟩ 7 "Alice" "QmE" 11 "") 11
    (by decide) (by exact ⟨by decide, by decide⟩) rfl (by decide)

/-- C2: after any sequence of operations from the freshly deployed
state, at most one certificate record is owned by any principal; and a
mint attempt (`_mintFirstCertificate`) by a principal that already owns
a record reverts with `CertificateAlreadyExists`, creating nothing. -/
theorem one_certificate_per_principal :
    (∀ (deployer platformWallet : Nat) (route name : String) (s : CMState),
      ReachableFrom (initState deployer platformWallet route name) s →
      ∀ t1 t2 c1 c2, s.certificates t1 = some c1 → s.certificates t2 = some c2 →
        c1.recipientAddress = c2.recipientAddress → t1 = t2) ∧
    (∀ (env : Env) (ctx : Ctx) (s : CMState) (courseId : Nat) (n i : String)
      (hh : Nat) (b : String), validStringLength n 100 = true →
      s.userCertificates ctx.sender ≠ 0 →
      errorOf (_mintFirstCertificate env ctx s courseId n i hh b) =
        some .CertificateAlreadyExists) :=
  ⟨fun d w rt nm _ hr =>
    (LedgerInv_reachable (LedgerInv_initState d w rt nm) hr).unique_owner,
   fun _ _ _ _ _ _ _ _ hn he => mintFirst_already_exists hn he⟩

/-- Witness for C2: the single record after the mint, and a repeated
mint attempt by principal 100 reverting with `CertificateAlreadyExists`. -/
theorem one_certificate_per_principal_witness :
    (1 : Nat) = 1 ∧
    errorOf (_mintFirstCertificate envX ⟨100, 10 ^ 15, 2000⟩ s1X 7 "Alice" "QmB" 12 "") =
      some .CertificateAlreadyExists :=
  ⟨one_certificate_per_principal.1 1 2 "https://verify" "EduVerse" s1X
      (ReachableFrom.step envX mintOpX ReachableFrom.refl) 1 1
      (getCert s1X 1) (getCert s1X 1) (by decide) (by decide) rfl,
   one_certificate_per_principal.2 envX ⟨100, 10 ^ 15, 2000⟩ s1X 7 "Alice" "QmB" 12 ""
      (by decide) (by decide)⟩

/-- C3 (code bug): the batch validation loop of
`addMultipleCoursesToCertificate` only checks membership against the
pre-call record, so a batch whose own array repeats a course id passes
validation and appends the id twice: after minting with course 5,
the batch `[7, 7]` succeeds and leaves `completedCourses = [5, 7, 7]`,
which violates the no-duplicate invariant the spec states. -/
theorem batch_intra_duplicate_bug :
    errorOf (step envX s1X (Op.addMultiple ⟨100, 2 * 10 ^ 14, 2000⟩ [7, 7] "QmB" 12)) =
      none ∧
    ((stepState envX s1X
        (Op.addMultiple ⟨100, 2 * 10 ^ 14, 2000⟩ [7, 7] "QmB" 12)).certificates 1).map
      Certificate.completedCourses = some [5, 7, 7] ∧
    ¬ List.Nodup [5, 7, 7] :=
  ⟨by decide, by decide, by decide⟩

/-- C4: in every mutating operation that performs settlement, every
write to the replay-guard set and the record store happens before the
first value-transfer leg: each successful call's effect trace is a block
of storage writes followed only by transfer legs. -/
theorem writes_precede_transfers :
    ∀ (env : Env) (s : CMState) (o : Op) (s' : CMState) (effs : List Effect),
      step env s o = .ok (s', effs) → writesBeforeTransfers effs :=
  fun _ _ _ _ _ h => step_ok_writesBeforeTransfers h

/-- Witness for C4: the effect trace of the concrete successful mint. -/
theorem writes_precede_transfers_witness :
    writesBeforeTransfers
      (mintWrites envX ⟨100, 10 ^ 15, 1000⟩ s0X 5 "Alice" "QmA" 11 "").2 :=
  writes_precede_transfers envX s0X mintOpX
    (mintWrites envX ⟨100, 10 ^ 15, 1000⟩ s0X 5 "Alice" "QmA" 11 "").1
    (mintWrites envX ⟨100, 10 ^ 15, 1000⟩ s0X 5 "Alice" "QmA" 11 "").2 rfl

/-- C5: for every settlement with required amount R and fee percent 10
(`_processCertificatePayment`) or 2 (`_processPayment`), the platform
share is the integer floor of R·F/100, platform share plus payee share
equals R exactly, and when the attached value exceeds R the difference
is refunded to the payer exactly, so the transfer legs move exactly the
attached value — no wei is created or retained beyond R. -/
theorem settlement_conservation :
    ∀ (pw rec R v snd : Nat), R ≤ v →
      certPaymentPlatformShare R + certPaymentPayeeShare R = R ∧
      certPaymentPlatformShare R = R * 10 / 100 ∧
      paymentPlatformShare R + paymentPayeeShare R = R ∧
      paymentPlatformShare R = R * 2 / 100 ∧
      transferTotal (_processCertificatePayment pw rec R v snd) = v ∧
      transferTotal (_processPayment pw rec R v snd) = v ∧
      (R < v →
        Effect.transferValue snd (v - R) ∈ _processCertificatePayment pw rec R v snd ∧
        Effect.transferValue snd (v - R) ∈ _processPayment pw rec R v snd) :=
  fun pw rec R v snd hRv =>
    ⟨certPayment_shares_sum R, certPaymentPlatformShare_eq_floor R,
     payment_shares_sum R, paymentPlatformShare_eq_floor R,
     transferTotal_processCertificatePayment pw rec R v snd hRv,
     transferTotal_processPayment pw rec R v snd hRv,
     fun hlt => ⟨refund_leg_processCertificatePayment pw rec R v snd hlt,
       refund_leg_processPayment pw rec R v snd hlt⟩⟩

/-- Witness for C5: settlement of 0.001 ether with 5 wei of excess. -/
theorem settlement_conservation_witness :
    certPaymentPlatformShare (10 ^ 15) + certPaymentPayeeShare (10 ^ 15) = 10 ^ 15 ∧
    certPaymentPlatformShare (10 ^ 15) = 10 ^ 15 * 10 / 100 ∧
    paymentPlatformShare (10 ^ 15) + paymentPayeeShare (10 ^ 15) = 10 ^ 15 ∧
    paymentPlatformShare (10 ^ 15) = 10 ^ 15 * 2 / 100 ∧
    transferTotal (_processCertificatePayment 2 42 (10 ^ 15) (10 ^ 15 + 5) 100) =
      10 ^ 15 + 5 ∧
    transferTotal (_processPayment 2 42 (10 ^ 15) (10 ^ 15 + 5) 100) = 10 ^ 15 + 5 ∧
    (10 ^ 15 < 10 ^ 15 + 5 →
      Effect.transferValue 100 (10 ^ 15 + 5 - 10 ^ 15) ∈
        _processCertificatePayment 2 42 (10 ^ 15) (10 ^ 15 + 5) 100 ∧
      Effect.transferValue 100 (10 ^ 15 + 5 - 10 ^ 15) ∈
        _processPayment 2 42 (10 ^ 15) (10 ^ 15 + 5) 100) :=
  settlement_conservation 2 42 (10 ^ 15) (10 ^ 15 + 5) 100 (by decide)

/-- C6 (code bug): for an append to an existing record of a course with
no per-course price override, `_getCertificatePrice` falls back to
`defaultCertificateFee` (0.001 ether), not to the configured append
default `defaultCourseAdditionFee` (0.0001 ether) that both the
contract's own field documentation and the service layer describe, so a
call attaching exactly the append default reverts with
`InsufficientPayment` instead of succeeding. -/
theorem append_price_not_addition_default_bug :
    _getCertificatePrice s1X 7 = s1X.defaultCertificateFee ∧
    s1X.defaultCertificateFee = 10 ^ 15 ∧
    s1X.defaultCourseAdditionFee = 10 ^ 14 ∧
    errorOf (step envX s1X
      (Op.mintOrUpdate ⟨100, 10 ^ 14, 3000⟩ 7 "Alice" "QmC" 13 "")) =
      some .InsufficientPayment :=
  ⟨by decide, by decide, by decide, by decide⟩

/-- C7: a batch append in which any single course fails the completion
check or is already a member of the caller's record reverts as a whole:
no course is appended, the record (and so `itemCount`) is unchanged and
the payment hash is not consumed, because the entire state is
unchanged. -/
theorem batch_atomicity :
    ∀ (env : Env) (ctx : Ctx) (s : CMState) (courseIds : List Nat)
      (cid : String) (hh c : Nat), c ∈ courseIds →
      (env.isCourseCompleted ctx.sender c = false ∨
       s.certificateCourseExists (s.userCertificates ctx.sender) c = true) →
      (step env s (Op.addMultiple ctx courseIds cid hh)).isOk = false ∧
      stepState env s (Op.addMultiple ctx courseIds cid hh) = s := by
  intro env ctx s courseIds cid hh c hmem hbad
  have hfail : (step env s (Op.addMultiple ctx courseIds cid hh)).isOk = false := by
    cases hs : step env s (Op.addMultiple ctx courseIds cid hh) with
    | error e => rfl
    | ok r =>
      exfalso
      obtain ⟨_, _, _, _, _, _, _, _, hval, _⟩ := addMultiple_ok_elim hs
      obtain ⟨hc1, hc2⟩ := validateBatch_ok_all hval c hmem
      rcases hbad with hb | hb
      · rw [hc1] at hb; exact absurd hb (by simp)
      · rw [hc2] at hb; exact absurd hb (by simp)
  refine ⟨hfail, ?_⟩
  unfold stepState
  cases hs : step env s (Op.addMultiple ctx courseIds cid hh) with
  | error e => rfl
  | ok r =>
    rw [hs] at hfail
    exact absurd hfail (by simp [Except.isOk, Except.toBool])

/-- Witness for C7: batch `[7, 9]` where course 9 was never completed
reverts and leaves the state untouched. -/
theorem batch_atomicity_witness :
    (step envX s1X (Op.addMultiple ⟨100, 2 * 10 ^ 14, 2000⟩ [7, 9] "QmB" 12)).isOk =
      false ∧
    stepState envX s1X (Op.addMultiple ⟨100, 2 * 10 ^ 14, 2000⟩ [7, 9] "QmB" 12) = s1X :=
  batch_atomicity envX ⟨100, 2 * 10 ^ 14, 2000⟩ s1X [7, 9] "QmB" 12 9
    (by decide) (Or.inl (by decide))

/-- C8 counterexample: a successful `updateCertificate` at the default
append fee of 0.0001 ether settles through the 10%-fee splitter — its
platform-fee transfer leg is 10^13 wei = floor(R·10/100), which is not
the floor(R·2/100) = 2·10^12 a "2% fee split" would produce, refuting
the claimed 2% split (both legs do go to the platform wallet). -/
theorem update_fee_split_counterexample :
    effectsOf (step envX s1X (Op.updateCert ⟨100, 10 ^ 14, 4000⟩ 1 "QmD" 14)) =
      some [Effect.markPaymentHash 14, Effect.writeCertificate 1,
        Effect.transferValue 2 (10 ^ 13), Effect.transferValue 2 (9 * 10 ^ 13)] ∧
    (10 : Nat) ^ 13 = certPaymentPlatformShare (10 ^ 14) ∧
    certPaymentPlatformShare (10 ^ 14) = 10 ^ 14 * 10 / 100 ∧
    certPaymentPlatformShare (10 ^ 14) ≠ 10 ^ 14 * 2 / 100 :=
  ⟨by decide, by decide, by decide, by decide⟩

/-- C8 (amended): for every successful `updateCertificate` call, the
caller is the record's owner, the attached value is at least the append
default (`defaultCourseAdditionFee`), no record's course list or course
count changes, and the entire required amount is settled to the
platform treasury at a *10%* fee split (`_processCertificatePayment`)
with the platform wallet as both fee recipient and residual recipient —
every transfer leg pays the platform wallet except the exact refund of
any excess to the payer. -/
theorem update_certificate_frame :
    ∀ (ctx : Ctx) (s : CMState) (tokenId : Nat) (cid : String) (hh : Nat)
      (r : CMState × List Effect),
      updateCertificate ctx s tokenId cid hh = .ok r →
      (getCert s tokenId).recipientAddress = ctx.sender ∧
      s.defaultCourseAdditionFee ≤ ctx.value ∧
      (∀ t, (getCert r.1 t).completedCourses = (getCert s t).completedCourses ∧
        (getCert r.1 t).totalCoursesCompleted = (getCert s t).totalCoursesCompleted) ∧
      r.2 = [Effect.markPaymentHash hh, Effect.writeCertificate tokenId]
        ++ _processCertificatePayment s.platformWallet s.platformWallet
            s.defaultCourseAdditionFee ctx.value ctx.sender ∧
      certPaymentPlatformShare s.defaultCourseAdditionFee +
        certPaymentPayeeShare s.defaultCourseAdditionFee = s.defaultCourseAdditionFee ∧
      certPaymentPlatformShare s.defaultCourseAdditionFee =
        s.defaultCourseAdditionFee * 10 / 100 ∧
      (∀ e ∈ _processCertificatePayment s.platformWallet s.platformWallet
          s.defaultCourseAdditionFee ctx.value ctx.sender,
        (∃ a, e = Effect.transferValue s.platformWallet a) ∨
        e = Effect.transferValue ctx.sender (ctx.value - s.defaultCourseAdditionFee)) := by
  intro ctx s tokenId cid hh r hstep
  obtain ⟨_, _, _, _, _, hfee, _, hOwner, hr⟩ := updateCertificate_ok_elim hstep
  subst hr
  refine ⟨hOwner, hfee, ?_, rfl, certPayment_shares_sum _,
    certPaymentPlatformShare_eq_floor _, ?_⟩
  · intro t
    simp only [getCert, updateWrites_fst_certificates]
    by_cases ht : t = tokenId
    · subst ht
      rw [fupd_same]
      exact ⟨rfl, rfl⟩
    · rw [fupd_ne _ _ _ _ ht]
      exact ⟨rfl, rfl⟩
  · intro e he
    rcases processCertificatePayment_legs _ _ _ _ _ e he with h | h | h
    · exact Or.inl ⟨_, h⟩
    · exact Or.inl ⟨_, h⟩
    · exact Or.inr h

/-- The concrete content refresh used by the C8 witness succeeds. -/
theorem updateX_step :
    updateCertificate ⟨100, 10 ^ 14, 4000⟩ s1X 1 "QmD" 14 =
      .ok (updateWrites ⟨100, 10 ^ 14, 4000⟩ s1X 1 "QmD" 14) := rfl

/-- Witness for C8 (amended): the concrete successful content refresh
at 0.0001 ether by the record's owner. -/
theorem update_certificate_frame_witness :
    (getCert s1X 1).recipientAddress = 100 ∧ s1X.defaultCourseAdditionFee ≤ 10 ^ 14 :=
  ⟨(update_certificate_frame ⟨100, 10 ^ 14, 4000⟩ s1X 1 "QmD" 14
      (updateWrites ⟨100, 10 ^ 14, 4000⟩ s1X 1 "QmD" 14) updateX_step).1,
   (update_certificate_frame ⟨100, 10 ^ 14, 4000⟩ s1X 1 "QmD" 14
      (updateWrites ⟨100, 10 ^ 14, 4000⟩ s1X 1 "QmD" 14) updateX_step).2.1⟩

/-- C9: a record's owner (`recipientAddress`) is fixed at creation: no
operation of the contract, over any sequence of calls from the deployed
state, ever changes it; in particular any ERC-1155 `safeTransferFrom`
between two nonzero addresses reverts (the `_update` override is
soulbound), so ownership is only established at mint. -/
theorem soulbound_owner_immutable :
    (∀ (deployer platformWallet : Nat) (route name : String) (s s' : CMState)
      (t : Nat) (c c' : Certificate),
      ReachableFrom (initState deployer platformWallet route name) s →
      ReachableFrom s s' →
      s.certificates t = some c → s'.certificates t = some c' →
      c'.recipientAddress = c.recipientAddress) ∧
    (∀ (ctx : Ctx) (s : CMState) (srcAddr dstAddr tid amount : Nat),
      srcAddr ≠ 0 → dstAddr ≠ 0 →
      (safeTransferFrom ctx s srcAddr dstAddr tid amount).isOk = false) := by
  constructor
  · intro d w rt nm s s' t c c' h1 h2 hc hc'
    have hInv := LedgerInv_reachable (LedgerInv_initState d w rt nm) h1
    obtain ⟨c'', hc'', hrec⟩ := reachable_cert_facts hInv h2 t c hc
    rw [hc'] at hc''
    cases hc''
    exact hrec
  · intro ctx s srcAddr dstAddr tid amount _ _
    cases hs : safeTransferFrom ctx s srcAddr dstAddr tid amount with
    | error e => rfl
    | ok r => exact absurd hs safeTransferFrom_never_ok

/-- Witness for C9: the minted record's owner after further calls, and a
concrete soulbound transfer rejection between principals 100 and 200. -/
theorem soulbound_owner_immutable_witness :
    (getCert s1X 1).recipientAddress = (getCert s1X 1).recipientAddress ∧
    (safeTransferFrom ⟨100, 0, 0⟩ s1X 100 200 1 1).isOk = false :=
  ⟨soulbound_owner_immutable.1 1 2 "https://verify" "EduVerse" s1X s1X 1
      (getCert s1X 1) (getCert s1X 1)
      (s1X_eq_step ▸ ReachableFrom.step envX mintOpX ReachableFrom.refl)
      ReachableFrom.refl (by decide) (by decide),
   soulbound_owner_immutable.2 ⟨100, 0, 0⟩ s1X 100 200 1 1 (by decide) (by decide)⟩

/-- C10: token ids are allocated starting at 1 and advance by exactly
one per mint, so 0 is never a valid certificate id; in every reachable
state `getUserCertificate u = 0` exactly when `u` owns no record, and
`_exists t` holds exactly when `1 ≤ t <` the next unallocated id,
equivalently exactly when a record is stored at `t`. -/
theorem token_id_allocation :
    ∀ (deployer platformWallet : Nat) (route name : String),
      (initState deployer platformWallet route name).nextTokenId = 1 ∧
      ∀ s, ReachableFrom (initState deployer platformWallet route name) s →
        (∀ u, getUserCertificate s u = 0 ↔
          ∀ t c, s.certificates t = some c → c.recipientAddress ≠ u) ∧
        (∀ t, s.existsTok t = true ↔ 1 ≤ t ∧ t < s.nextTokenId) ∧
        (∀ t, s.existsTok t = true ↔ (s.certificates t).isSome = true) ∧
        s.existsTok 0 = false ∧
        (∀ env o, (stepState env s o).nextTokenId = s.nextTokenId ∨
          ((stepState env s o).nextTokenId = s.nextTokenId + 1 ∧
            s.certificates s.nextTokenId = none ∧
            ((stepState env s o).certificates s.nextTokenId).isSome = true)) := by
  intro d w rt nm
  refine ⟨rfl, ?_⟩
  intro s hr
  have hInv := LedgerInv_reachable (LedgerInv_initState d w rt nm) hr
  refine ⟨hInv.userCert_zero_iff, fun t => existsTok_iff,
    hInv.existsTok_iff_isSome, by simp [CMState.existsTok], ?_⟩
  intro env o
  unfold stepState
  cases hs : step env s o with
  | error e => exact Or.inl rfl
  | ok r => exact step_next_facts hInv hs

/-- Witness for C10: the deployed state allocates from 1, and the unused
principal 100 owns nothing there. -/
theorem token_id_allocation_witness :
    (initState 1 2 "https://verify" "EduVerse").nextTokenId = 1 ∧
    (getUserCertificate s0X 100 = 0 ↔
      ∀ t c, s0X.certificates t = some c → c.recipientAddress ≠ 100) :=
  ⟨(token_id_allocation 1 2 "https://verify" "EduVerse").1,
   ((token_id_allocation 1 2 "https://verify" "EduVerse").2 s0X ReachableFrom.refl).1 100⟩
